import Mathlib

/-!
Verification of the clearml client-SDK subset: framework save/load binding
(`clearml/binding/frameworks/__init__.py`, `catboost_bind.py`), the thread-kill
utility (`clearml/utilities/lowlevel/threads.py`), archive unpacking
(`clearml/utilities/pigar/unpack.py`), config text round-tripping
(`clearml/utilities/config.py`) and hyper-parameter CRUD
(`clearml/backend_interface/task/hyperparams.py`).

Python dictionaries are modelled as association lists or lookup functions,
machine state (recursion-guard dict, model-id cache, lock) is passed
explicitly, and calls into external libraries (REST session, filesystem,
catboost, ctypes) are oracles supplied as inputs.
-/

namespace ClearML

/-! ### `_patched_call` and the per-thread recursion guard
(`binding/frameworks/__init__.py`, lines 22-44)

`_recursion_guard` is a dict keyed by thread ident; only key membership
matters, so it is modelled as a `Finset Nat`.  The behaviour of a patched
callback is abstracted as a `Script`: the list of nested wrapped calls it
performs on the same thread, in order, followed by an optional raise
(exceptions propagate through `_inner_patch`, which re-raises and pops the
guard entry in its `finally` block). -/

namespace Frameworks

/-- Events observable while running wrapped calls: execution of the original
function, or execution of the patched callback, on a given thread ident. -/
inductive Ev where
  | orig (tid : Nat)
  | patched (tid : Nat)
  deriving DecidableEq, Repr

mutual
/-- Behaviour of a patched callback: the wrapped calls it makes, then
whether it raises. -/
inductive Script where
  | node : ScriptList → Bool → Script
  deriving Repr
/-- A list of nested wrapped calls. -/
inductive ScriptList where
  | nil : ScriptList
  | cons : Script → ScriptList → ScriptList
  deriving Repr
end

/-- Number of scripts in a `ScriptList`. -/
def ScriptList.length : ScriptList → Nat
  | .nil => 0
  | .cons _ t => 1 + t.length

mutual
/-- One invocation of a function wrapped by `_patched_call` on thread `tid`
with guard dict `g`.  Returns the new guard, the event trace, and whether an
exception propagated out.  Mirrors `_inner_patch`: if `tid ∈ g` only the
original function runs; otherwise the guard entry is inserted, the patched
callback runs (possibly making nested wrapped calls, possibly raising), and
the `finally` block pops the entry before the call returns or re-raises. -/
def runWrapped (tid : Nat) (g : Finset Nat) : Script → Finset Nat × List Ev × Bool
  | .node nested raises =>
    if tid ∈ g then
      (g, [Ev.orig tid], false)
    else
      let r := runSeq tid (insert tid g) nested
      (r.1.erase tid, Ev.patched tid :: r.2.1, r.2.2 || raises)
/-- Run a sequence of nested wrapped calls, stopping at the first raise. -/
def runSeq (tid : Nat) (g : Finset Nat) : ScriptList → Finset Nat × List Ev × Bool
  | .nil => (g, [], false)
  | .cons s rest =>
    let r1 := runWrapped tid g s
    if r1.2.2 then
      (r1.1, r1.2.1, true)
    else
      let r2 := runSeq tid r1.1 rest
      (r2.1, r1.2.1 ++ r2.2.1, r2.2.2)
end

/-! #### `WeightsFileHandler` callback registries
(`binding/frameworks/__init__.py`, lines 105-194)

`_model_pre_callbacks` / `_model_post_callbacks` are dicts from an `int`
handle to a callback function; insertion order is Python's dict iteration
order, so a registry is an association list.  Callback functions are
identified by a `Nat` (Python compares them with `==`, which for functions
is identity).  The `randint` draws of `_add_callback`'s `while True` loop
are an oracle list of draws; exhausting it models non-termination. -/

/-- A callback registry: `(handle, function)` pairs in insertion order. -/
abbrev Registry := List (Nat × Nat)

/-- The handles present in a registry. -/
def registryKeys (t : Registry) : List Nat := t.map (·.1)

/-- Dict lookup by handle. -/
def registryLookup (k : Nat) (t : Registry) : Option Nat :=
  (t.find? (fun p => p.1 == k)).map (·.2)

/-- `WeightsFileHandler._add_callback(func, target)`: if `func` is already a
value of the dict, return the first handle mapped to it and leave the dict
unchanged; otherwise draw random handles until one is not a key, insert the
mapping, and return the fresh handle.  `none` models the (probability-zero)
case that the supplied draws never produce a fresh handle. -/
def add_callback (randoms : List Nat) (func : Nat) (target : Registry) :
    Option (Nat × Registry) :=
  match target.find? (fun p => p.2 == func) with
  | some p => some (p.1, target)
  | none =>
    match randoms.find? (fun h => !(target.any (fun p => p.1 == h))) with
    | none => none
    | some h => some (h, target ++ [(h, func)])

/-- `WeightsFileHandler._remove_callback(handle, target)`: pop the handle and
return `True` if present, otherwise return `False`. -/
def remove_callback (handle : Nat) (target : Registry) : Bool × Registry :=
  if target.any (fun p => p.1 == handle) then
    (true, target.filter (fun p => p.1 != handle))
  else
    (false, target)

/-- `add_pre_callback` delegates to `_add_callback` on `_model_pre_callbacks`
(`add_post_callback` is the same on `_model_post_callbacks`). -/
def add_pre_callback (randoms : List Nat) (f : Nat) (pre : Registry) :
    Option (Nat × Registry) :=
  add_callback randoms f pre

/-- `remove_pre_callback` delegates to `_remove_callback`
(`remove_post_callback` is the same on the post registry). -/
def remove_pre_callback (h : Nat) (pre : Registry) : Bool × Registry :=
  remove_callback h pre

/-! #### `WeightsFileHandler.restore_weights_file` / `create_output_model`
(`binding/frameworks/__init__.py`, lines 196-548)

The externals are oracles: `os.path.abspath` (`none` = `TypeError`), the
registered pre/post callbacks (arbitrary transformers of the `ModelInfo`
object that may also raise or return `None`), `InputModel` / `OutputModel`
construction and `task.connect` (`none` / `false` = the call raised), and
the filesystem globbing of `create_output_model`.  `Model._local_model_to_id_uri`
is a map from the (optional) string key to an `(id, url)` pair; every access
to it and to `_model_store_lookup_lock` is recorded in an event trace.
`task.name`, label enumerations and the config dict/text (whose exceptions
the code swallows internally) only feed the model-construction oracles and
are folded into them. -/

/-- Python truthiness of an optional string (`None` and `""` are falsy). -/
def pyTruthy : Option String → Bool
  | none => false
  | some s => !(s == "")

/-- Python `a or b` on optional strings. -/
def pyOr (a b : Option String) : Option String :=
  if pyTruthy a then a else b

/-- A resolved model object (`InputModel` / `OutputModel`): the fields the
handler reads from it. -/
structure TModel where
  id : String
  url : String
  uploadStorageUri : Bool
  deriving DecidableEq, Repr

/-- `WeightsFileHandler.ModelInfo` (the task field is the ambient task; the
saved weights object is identified by a `Nat`). -/
structure ModelInfo where
  model : Option TModel
  uploadFilename : Option String
  localModelPath : Option String
  localModelId : Option String
  framework : Option String
  weightsObject : Option Nat
  deriving DecidableEq, Repr

/-- Outcome of invoking one registered callback: it raised (the code catches
the exception and keeps the previous `model_info`), or it returned a value
(possibly `None`). -/
inductive CbRes where
  | raises
  | returns (mi : Option ModelInfo)

/-- The pre/post callback loops: each callback receives the current
`model_info` (which an earlier callback may have turned into `None`) and its
result replaces it unless it raised. -/
def runCallbacks (cbs : List (Option ModelInfo → CbRes)) (mi : Option ModelInfo) :
    Option ModelInfo :=
  cbs.foldl (fun cur cb => match cb cur with | .raises => cur | .returns x => x) mi

/-- `Model._local_model_to_id_uri`: a dict from the stored key (a possibly
absent string) to an `(id, url)` pair. -/
def Cache := Option String → Option (String × String)

/-- Dict store `c[k] = v`. -/
def cacheSet (c : Cache) (k : Option String) (v : String × String) : Cache :=
  fun k' => if k' = k then some v else c k'

/-- Events on the shared state: lock acquire/release and cache reads and
writes. -/
inductive LEv where
  | acq
  | rel
  | read (key : Option String)
  | write (key : Option String) (v : String × String)
  deriving DecidableEq, Repr

/-- `local_model_path = os.path.abspath(filepath) if filepath else filepath`
under `try/except TypeError` (`.error` = the `TypeError` path). -/
def pyAbspath (abspath : String → Option String) : Option String →
    Except Unit (Option String)
  | none => .ok none
  | some fp =>
    if fp == "" then .ok (some fp)
    else match abspath fp with
      | none => .error ()
      | some ap => .ok (some ap)

/-- Oracle inputs of `restore_weights_file`. -/
structure RestoreEnv where
  taskPresent : Bool
  abspath : String → Option String
  preCbs : List (Option ModelInfo → CbRes)
  postCbs : List (Option ModelInfo → CbRes)
  inputModelOfId : String → Option TModel  -- InputModel(model_id); none = raised
  importModel : Option TModel              -- InputModel.import_model(...); none = raised
  connectOk : Option TModel → Bool         -- task.connect(tim); false = raised

/-- Lines 240-292: resolve `trains_in_model`.  If the (possibly
callback-modified) `model_info` already carries a model, use it; otherwise
read the cache at `local_model_id or local_model_path`; a truthy cached id
is turned into an `InputModel` (falling back to `import_model` when that
raises), otherwise the weights are imported.  Returns the resolved model
(`none` = `import_model` raised, aborting the `try` block) and the cache
read events. -/
def resolveInModel (env : RestoreEnv) (mi : ModelInfo) (c : Cache) :
    Option TModel × List LEv :=
  match mi.model with
  | some m => (some m, [])
  | none =>
    let key := pyOr mi.localModelId mi.localModelPath
    let evs := [LEv.read key]
    match c key with
    | some (mid, _) =>
      if mid == "" then (env.importModel, evs)
      else
        match env.inputModelOfId mid with
        | some m => (some m, evs)
        | none => (env.importModel, evs)
    | none => (env.importModel, evs)

/-- Lines 294-337: store the model on `model_info`, run the post callbacks,
`task.connect` the result and write the cache at the final
`model_info.local_model_id`.  (Lines 317-331 are dead: the guard is the
constant `False`.)  A post loop ending in `None` makes line 302 raise
`AttributeError`; `connect` may raise; a `None` model makes
`trains_in_model.id` raise — each aborts the `try` block before the write. -/
def restoreAfter (env : RestoreEnv) (mi : ModelInfo) (tim : TModel) (c : Cache) :
    Cache × List LEv :=
  match runCallbacks env.postCbs (some { mi with model := some tim }) with
  | none => (c, [])
  | some mi2 =>
    if env.connectOk mi2.model then
      match mi2.model with
      | none => (c, [])
      | some m =>
        (cacheSet c mi2.localModelId (m.id, m.url),
         [LEv.write mi2.localModelId (m.id, m.url)])
    else (c, [])

/-- The lock-protected `try` block of `restore_weights_file` (the outer
`except` only logs, the `finally` releases). -/
def restoreLocked (env : RestoreEnv) (mi : ModelInfo) (c : Cache) :
    Cache × List LEv :=
  match resolveInModel env mi c with
  | (none, evs) => (c, evs)
  | (some tim, evs) =>
    let r := restoreAfter env mi tim c
    (r.1, evs ++ r.2)

/-- `WeightsFileHandler.restore_weights_file(model, filepath, framework,
task)`: returns the value returned to the caller, the cache after the call,
and the trace of lock/cache events. -/
def restore_weights_file (env : RestoreEnv) (filepath framework : Option String)
    (c : Cache) : Option String × Cache × List LEv :=
  if !env.taskPresent then (filepath, c, [])
  else
    match pyAbspath env.abspath filepath with
    | .error _ => (filepath, c, [])
    | .ok lmp =>
      let mi0 : ModelInfo :=
        { model := none, uploadFilename := none, localModelPath := lmp,
          localModelId := filepath, framework := framework, weightsObject := none }
      match runCallbacks env.preCbs (some mi0) with
      | none => (filepath, c, [])
      | some mi =>
        if !pyTruthy mi.localModelPath then (filepath, c, [])
        else
          let r := restoreLocked env mi c
          (filepath, r.1, LEv.acq :: (r.2 ++ [LEv.rel]))

/-- Oracle inputs of `create_output_model`. -/
structure CreateEnv where
  taskPresent : Bool
  abspath : String → Option String
  preCbs : List (Option ModelInfo → CbRes)
  postCbs : List (Option ModelInfo → CbRes)
  isDir : Bool                             -- Path(lmp).is_dir()
  rglobFiles : List String                 -- Path(lmp).rglob("*")
  singleAbs : String                       -- str(Path(lmp).absolute())
  globFiles : List String                  -- parent.glob(name + ".*")
  stemRes : Option String                  -- Path(lmp).stem under try (none = raised)
  nameOf : String → String                 -- Path(f).name
  outputUri : Bool                         -- task.output_uri truthiness
  loadModelRes : Except Unit (Option String)  -- InputModel.load_model(...).id
  outputModel : Option String → Option TModel -- OutputModel(..., base_model_id=·)
  ptlLoaded : Bool                         -- sys.modules.get("pytorch_lightning")
  mkstempOk : Bool                         -- mkstemp/close/copy did not raise
  updateWeightsPackageOk : Bool
  updateWeightsOk : Bool
  registerOk : Bool                        -- update_weights(register_uri=...) ok

/-- Lines 441-479: resolve `trains_out_model`.  When the callback-modified
`model_info` has no model, read the cache at `local_model_id or
local_model_path`; a falsy cached id falls back to
`InputModel.load_model` (only when the task has no `output_uri`; its
exceptions yield `None`), and an `OutputModel` is constructed with the
found id as `base_model_id` (`none` = the constructor raised). -/
def resolveOutModel (env : CreateEnv) (mi : ModelInfo) (c : Cache) :
    Option TModel × List LEv :=
  match mi.model with
  | some m => (some m, [])
  | none =>
    let key := pyOr mi.localModelId mi.localModelPath
    let evs := [LEv.read key]
    let inId1 : Option String :=
      match c key with
      | some (mid, _) => if mid == "" then none else some mid
      | none => none
    let inId2 : Option String :=
      match inId1 with
      | some mid => some mid
      | none =>
        if !env.outputUri then
          match env.loadModelRes with
          | .error _ => none
          | .ok r => r
        else none
    (env.outputModel inId2, evs)

/-- Lines 505-534: upload or register the weights.  Returns whether the step
completed without raising: a package upload for multiple files; otherwise
the pytorch-lightning `.part` rename (which raises `AttributeError` when
`target_filename` is `None` and the module is loaded), a temp copy and
`update_weights`; without storage, `update_weights(register_uri=...)`. -/
def createUpload (env : CreateEnv) (files : List String) (targetF : Option String)
    (m : TModel) : Bool :=
  if m.uploadStorageUri then
    if files.length > 1 then env.updateWeightsPackageOk
    else if env.ptlLoaded && targetF.isNone then false
    else env.mkstempOk && env.updateWeightsOk
  else env.registerOk

/-- Lines 489-541: store the model and the weights object on `model_info`,
run the post callbacks (a loop ending in `None` makes line 500 raise), clear
the weights object, upload, and on success write the cache at the final
`model_info.local_model_id`. -/
def createAfter (env : CreateEnv) (modelArg : Option Nat) (files : List String)
    (mi2 : ModelInfo) (m : TModel) (c : Cache) : Cache × List LEv :=
  match runCallbacks env.postCbs
      (some { mi2 with model := some m, weightsObject := modelArg }) with
  | none => (c, [])
  | some mi4 =>
    let mi4 := { mi4 with weightsObject := none }
    match mi4.model with
    | none => (c, [])
    | some m2 =>
      if createUpload env files mi4.uploadFilename m2 then
        (cacheSet c mi4.localModelId (m2.id, m2.url),
         [LEv.write mi4.localModelId (m2.id, m2.url)])
      else (c, [])

/-- The lock-protected `try` block of `create_output_model`: the
`TypeError` and falsy-path early returns (lines 381, 395) happen with the
lock held and pass through the `finally` release; a pre loop ending in
`None` makes line 431 raise `AttributeError` before the `None` check of
line 434; an empty `files` list makes `files[0]` raise `IndexError` at
line 418. -/
def createLocked (env : CreateEnv) (modelArg : Option Nat)
    (savedPath framework : Option String) (singlefile : Bool) (c : Cache) :
    Cache × List LEv :=
  match pyAbspath env.abspath savedPath with
  | .error _ => (c, [])
  | .ok lmp =>
    let mi0 : ModelInfo :=
      { model := none, uploadFilename := none, localModelPath := lmp,
        localModelId := savedPath, framework := framework, weightsObject := none }
    if !pyTruthy mi0.localModelPath then (c, [])
    else
      let files := if env.isDir then env.rglobFiles
                   else if singlefile then [env.singleAbs]
                   else env.globFiles
      match (if files.length > 1 then Except.ok env.stemRes
             else match files with
                  | [] => Except.error ()
                  | f :: _ => Except.ok (some (env.nameOf f))) with
      | .error _ => (c, [])
      | .ok targetFilename =>
        match runCallbacks env.preCbs (some { mi0 with
            weightsObject := modelArg, uploadFilename := targetFilename }) with
        | none => (c, [])
        | some mi2 =>
          let mi2 := { mi2 with weightsObject := none }
          match resolveOutModel env mi2 c with
          | (none, evs) => (c, evs)
          | (some m, evs) =>
            let r := createAfter env modelArg files mi2 m c
            (r.1, evs ++ r.2)

/-- `WeightsFileHandler.create_output_model(model, saved_path, framework,
task, singlefile, model_name, config_obj)`: returns the value returned to
the caller, the cache after the call, and the trace of lock/cache events.
The lock is acquired as the first statement of the `try` block and every
further step runs under it. -/
def create_output_model (env : CreateEnv) (modelArg : Option Nat)
    (savedPath framework : Option String) (singlefile : Bool) (c : Cache) :
    Option String × Cache × List LEv :=
  if !env.taskPresent then (savedPath, c, [])
  else
    let r := createLocked env modelArg savedPath framework singlefile c
    (savedPath, r.1, LEv.acq :: (r.2 ++ [LEv.rel]))

/-- `PatchCatBoostModelIO._save(original_fn, obj, f, ...)`: call the
original `save_model` first, then (when a current task exists) register the
output model via `create_output_model` with `singlefile=True`, and return
exactly the original's result.  `f` is the filename when it was a string,
else `None`. -/
def catboost_save (origRet : Nat) (taskPresent : Bool) (env : CreateEnv)
    (objId : Nat) (f : Option String) (c : Cache) : Nat × Cache × List LEv :=
  if !taskPresent then (origRet, c, [])
  else
    let r := create_output_model env (some objId) f (some "CatBoost") true c
    (origRet, r.2.1, r.2.2)

/-- Is an event a cache read or write (as opposed to a lock event)? -/
def isRW : LEv → Bool
  | .read _ => true
  | .write _ _ => true
  | _ => false

/-- Lock-discipline check over a trace, carrying the current hold depth:
reads and writes only while held, releases only while held, final depth
zero. -/
def lockCheck : Nat → List LEv → Bool
  | d, [] => d == 0
  | d, .acq :: t => lockCheck (d + 1) t
  | d, .rel :: t => decide (0 < d) && lockCheck (d - 1) t
  | d, .read _ :: t => decide (0 < d) && lockCheck d t
  | d, .write _ _ :: t => decide (0 < d) && lockCheck d t

/-- A trace respects the lock discipline when starting unlocked. -/
def lockDisciplineOk (tr : List LEv) : Bool := lockCheck 0 tr

/-- A callback is tame when it preserves `local_model_id` on real
`ModelInfo` inputs and does not produce a `ModelInfo` from `None`. -/
def tameCb (cb : Option ModelInfo → CbRes) : Prop :=
  (∀ mi mi', cb (some mi) = .returns (some mi') →
    mi'.localModelId = mi.localModelId) ∧
  (∀ mi', cb none ≠ .returns (some mi'))

end Frameworks

/-! ### Archive unpacking (`utilities/pigar/unpack.py`)

`Archive.unpack` calls `_safe_extractall`, which collects the member names
rejected by `is_safe` and raises `ValueError` listing them before
extracting anything.  `is_safe` as written references
`string.ascii_letter`, an attribute that does not exist in Python's
`string` module (the real name is `ascii_letters`), so evaluating the
drive-letter clause raises `AttributeError`.  The embedding keeps that
behaviour: reaching the clause is an error. -/

namespace Unpack

/-- Exceptions escaping `_safe_extractall`. -/
inductive PyExc where
  | attributeError
  | valueError (names : List String)
  deriving DecidableEq, Repr

/-- `re.search(r"[.][.][/\\]", filename)`: does the name contain `../` or
`..\`? -/
def hasDotDotSep : List Char → Bool
  | '.' :: '.' :: '/' :: _ => true
  | '.' :: '.' :: '\\' :: _ => true
  | _ :: rest => hasDotDotSep rest
  | [] => false

/-- `Archive.is_safe(filename)`.  The disjunction short-circuits: a name
starting with `/` or `\` is decided unsafe before the drive clause runs;
otherwise, when the name has at least two characters and the second is
`:`, evaluating `filename[0] in string.ascii_letter` raises
`AttributeError` (the attribute does not exist); otherwise the name is safe
iff it contains no `../` or `..\`. -/
def is_safe (f : String) : Except Unit Bool :=
  let cs := f.toList
  if cs.head? = some '/' ∨ cs.head? = some '\\' then .ok false
  else
    match cs with
    | _ :: ':' :: _ => .error ()
    | _ => .ok (!hasDotDotSep cs)

/-- The loop of `_safe_extractall`: collect the unsafe names in order,
propagating any exception raised by `is_safe`. -/
def collectBad : List String → Except Unit (List String)
  | [] => .ok []
  | n :: rest => do
    let b ← is_safe n
    let tail ← collectBad rest
    .ok (if b then tail else n :: tail)

/-- `Archive._safe_extractall` (the body of `Archive.unpack` after
`_prepare`): check every member name; raise `ValueError` listing the unsafe
names when any exist, otherwise extract (`.ok ()`).  An `AttributeError`
from `is_safe` propagates. -/
def safe_extractall (names : List String) : Except PyExc Unit :=
  match collectBad names with
  | .error () => .error .attributeError
  | .ok [] => .ok ()
  | .ok badNames => .error (.valueError badNames)

end Unpack

/-! ### Thread-kill utility (`utilities/lowlevel/threads.py`) -/

namespace Threads

/-- An exception value passed to `PyThreadState_SetAsyncExc`: the default
`SystemExit`, or some other exception object. -/
inductive Exc where
  | systemExit
  | other (n : Nat)
  deriving DecidableEq, Repr

/-- Payload of one `PyThreadState_SetAsyncExc` call: an exception object, or
`NULL` (the cancellation call). -/
inductive Payload where
  | exc (e : Exc)
  | null
  deriving DecidableEq, Repr

/-- Oracle inputs for `_lowlevel_async_raise`: the snapshot of
`threading._active` (thread ident paired with the identity of the thread
object, in iteration order) and the behaviour of
`ctypes.pythonapi.PyThreadState_SetAsyncExc` (number of modified thread
states for a given ident; `none` models the ctypes call raising, which the
code catches and treats as `ret = 0`). -/
structure RaiseEnv where
  active : List (Nat × Nat)
  setAsyncExcRes : Nat → Option Nat

/-- `_lowlevel_async_raise(thread_obj, exception)`: scan `threading._active`
for the first ident whose thread object is `thread_obj`; return `False` if
absent.  Otherwise call `PyThreadState_SetAsyncExc` with the supplied
exception (defaulting to `SystemExit()`); `ret == 0` yields `False`,
`ret > 1` issues a second call with `NULL` and yields `False`, `ret == 1`
yields `True`.  Returns the result together with the list of
`PyThreadState_SetAsyncExc` calls made, in order. -/
def lowlevel_async_raise (env : RaiseEnv) (threadObj : Nat) (exception : Option Exc) :
    Bool × List (Nat × Payload) :=
  match env.active.find? (fun p => p.2 == threadObj) with
  | none => (false, [])
  | some p =>
    let targetTid := p.1
    let exc := exception.getD Exc.systemExit
    let ret := (env.setAsyncExcRes targetTid).getD 0
    if ret == 0 then
      (false, [(targetTid, Payload.exc exc)])
    else if ret > 1 then
      (false, [(targetTid, Payload.exc exc), (targetTid, Payload.null)])
    else
      (true, [(targetTid, Payload.exc exc)])

/-- `kill_thread(thread_obj, wait)`: returns `False` iff
`_lowlevel_async_raise(thread_obj, SystemExit())` does.  (The `wait` loop
only polls `is_alive` and never changes the return value, which is `True`
on that path.) -/
def kill_thread (env : RaiseEnv) (threadObj : Nat) : Bool × List (Nat × Payload) :=
  let r := lowlevel_async_raise env threadObj (some Exc.systemExit)
  if !r.1 then (false, r.2) else (true, r.2)

end Threads

/-! ### Hyper-parameter CRUD (`backend_interface/task/hyperparams.py`)

The REST session, API-version checks and the server response are oracles in
`Env` / `GetEnv`.  `tasks.ParamsItem` is modelled by its fields used here
(`section`, `name`, `value`); Python `None` and the empty string are both
falsy, hence `Option String` with an explicit truthiness test. -/

namespace HyperParams

/-- The fields of `tasks.ParamsItem` used by this module.  (`section` is a
Lean keyword, hence the trailing underscore.) -/
structure ParamsItem where
  section_ : Option String
  name : Option String
  value : Option String
  deriving DecidableEq, Repr

/-- Python truthiness of an optional string: `None` and `""` are falsy. -/
def truthy : Option String → Bool
  | none => false
  | some s => !(s == "")

/-- Python `a or b` on optional strings. -/
def orStr (a b : Option String) : Option String :=
  if truthy a then a else b

/-- `UNSAFE_NAMES_2_10` (`hyperparams.py`, lines 203-241). -/
def UNSAFE_NAMES_2_10 : List String :=
  ["ne", "gt", "gte", "lt", "lte", "in", "nin", "mod", "all", "size",
   "exists", "not", "elemMatch", "type", "within_distance",
   "within_spherical_distance", "within_box", "within_polygon", "near",
   "near_sphere", "max_distance", "min_distance", "geo_within",
   "geo_within_box", "geo_within_polygon", "geo_within_center",
   "geo_within_sphere", "geo_intersects", "contains", "icontains",
   "startswith", "istartswith", "endswith", "iendswith", "exact", "iexact",
   "match"]

/-- One value of the `_escape_unsafe_values` generator: names in
`UNSAFE_NAMES_2_10` gain a `_` prefix, all others pass through. -/
def escapeValue (v : String) : String :=
  if v ∈ UNSAFE_NAMES_2_10 then "_" ++ v else v

/-- `HyperParams._escape_unsafe_values(*values)` over a list of values. -/
def escape_unsafe_values (vs : List String) : List String :=
  vs.map escapeValue

/-- Oracle inputs of `edit_hyper_params` / `delete_hyper_params`. -/
structure Env where
  v29 : Bool            -- Session.check_min_api_version("2.9")
  v211 : Bool           -- Session.check_min_api_version("2.11")
  replaceHasValue : Bool  -- tasks.ReplaceHyperparamsEnum.has_value(replace)
  offline : Bool        -- task.is_offline()
  sendOk : Bool         -- res.ok() of the send

/-- `make_item(value, name)` inside `edit_hyper_params`: override the name
when a truthy one is supplied, require a truthy name, resolve the section as
`force_section or a_item.section or default_section` and require it truthy,
then escape section and name when the server API version is below 2.11
(`escapeUnsafe`); for 2.11+ the resolved section is assigned unescaped and
the name is left as is.  `.error` models the `ValueError` raises. -/
def make_item (escapeUnsafe : Bool) (forceSection defaultSection : Option String)
    (value : ParamsItem) (name : Option String) : Except Unit ParamsItem :=
  let a1 := if truthy name then { value with name := name } else value
  match a1.name, orStr forceSection (orStr a1.section_ defaultSection) with
  | some n, some sect =>
    if n == "" || sect == "" then .error ()
    else if escapeUnsafe then
      .ok { a1 with section_ := some (escapeValue sect), name := some (escapeValue n) }
    else
      .ok { a1 with section_ := some sect }
  | _, _ => .error ()

/-- Python dict update `props[k] = it`: replace in place when the key exists,
else append. -/
def upsert (props : List (Option String × ParamsItem)) (k : Option String)
    (it : ParamsItem) : List (Option String × ParamsItem) :=
  if props.any (fun p => p.1 == k) then
    props.map (fun p => if p.1 == k then (k, it) else p)
  else
    props ++ [(k, it)]

/-- Result of `edit_hyper_params`: the returned boolean, whether
`task.reload()` ran, the `EditHyperParamsRequest.hyperparams` payload (when a
request was sent), and the properties saved to the offline dir (when
offline). -/
structure EditResult where
  ret : Bool
  reloaded : Bool
  sent : Option (List ParamsItem)
  savedOffline : Option (List ParamsItem)
  deriving DecidableEq, Repr

/-- `HyperParams.edit_hyper_params`: raise `ValueError` below API 2.9;
build items via `make_item` with escaping exactly when the API version is
below 2.11; key them by name (later duplicates win); when offline, save the
properties and return `True`; otherwise send the request, and on an ok
response reload and return `True`, else return `False`.  Each input pair is
`(value, name)` — the dict branch of the Python code supplies the name, the
iterable branch supplies `none`. -/
def edit_hyper_params (env : Env) (items : List (ParamsItem × Option String))
    (defaultSection forceSection : Option String) : Except Unit EditResult :=
  if !env.v29 then .error ()
  else
    let escapeUnsafe := !env.v211
    match items.mapM (fun iv => make_item escapeUnsafe forceSection defaultSection iv.1 iv.2) with
    | .error e => .error e
    | .ok mitems =>
      let props := mitems.foldl (fun acc it => upsert acc it.name it) []
      if env.offline then
        .ok { ret := true, reloaded := false, sent := none,
              savedOffline := some (props.map (·.2)) }
      else if env.sendOk then
        .ok { ret := true, reloaded := true, sent := some (props.map (·.2)),
              savedOffline := none }
      else
        .ok { ret := false, reloaded := false, sent := some (props.map (·.2)),
              savedOffline := none }

/-- Result of `delete_hyper_params`. -/
structure DelResult where
  ret : Bool
  reloaded : Bool
  sentKeys : List (String × String)
  deriving DecidableEq, Repr

/-- `get_key(value)` inside `delete_hyper_params`: a `(section, name)` pair,
`ValueError` when either is falsy. -/
def get_key (v : Option String × Option String) : Except Unit (String × String) :=
  match v with
  | (some s, some n) => if s == "" || n == "" then .error () else .ok (s, n)
  | _ => .error ()

/-- `HyperParams.delete_hyper_params`: raise `ValueError` below API 2.9;
collect the deduplicated key set; send the request, and on an ok response
reload and return `True`, else return `False`. -/
def delete_hyper_params (env : Env)
    (iterables : List (List (Option String × Option String))) :
    Except Unit DelResult :=
  if !env.v29 then .error ()
  else
    match iterables.flatten.mapM get_key with
    | .error e => .error e
    | .ok ks =>
      let keys := ks.eraseDups
      if env.sendOk then .ok { ret := true, reloaded := true, sentKeys := keys }
      else .ok { ret := false, reloaded := false, sentKeys := keys }

/-- Oracle inputs of `get_hyper_params`: the version check, `res.ok()` and
the response payload (task id, hyperparams list per entry). -/
structure GetEnv where
  v29 : Bool
  resOk : Bool
  params : List (String × List ParamsItem)

/-- One iteration of the item loop of `get_hyper_params`: skip the item when
a section filter excludes it or the selector rejects it (a raising selector
is caught and skips the item); `return_obj` replaces the item with a fresh
empty `tasks.ParamsItem()`; a raising projector is caught and skips the
item.  Selector and projector oracles return `none` to model a raise. -/
def getItemStep (sections : Option (List String))
    (selector : Option (ParamsItem → Option Bool))
    (projector : Option (ParamsItem → Option ParamsItem)) (returnObj : Bool)
    (acc : List ((Option String × Option String) × ParamsItem))
    (item : ParamsItem) : List ((Option String × Option String) × ParamsItem) :=
  let excluded := match sections with
    | some ss => match item.section_ with
      | some s => !(ss.contains s)
      | none => true
    | none => false
  if excluded then acc
  else
    match selector.map (fun sel => sel item) with
    | some none => acc      -- selector raised, caught and logged
    | some (some false) => acc
    | _ =>
      let item1 := if returnObj then ⟨none, none, none⟩ else item
      match projector with
      | none =>
        (if acc.any (fun p => p.1 == (item1.section_, item1.name)) then
          acc.map (fun p => if p.1 == (item1.section_, item1.name) then
            (p.1, item1) else p)
        else acc ++ [((item1.section_, item1.name), item1)])
      | some proj =>
        match proj item1 with
        | none => acc       -- projector raised, caught and logged
        | some item2 =>
          (if acc.any (fun p => p.1 == (item1.section_, item1.name)) then
            acc.map (fun p => if p.1 == (item1.section_, item1.name) then
              (p.1, item2) else p)
          else acc ++ [((item1.section_, item1.name), item2)])

/-- `HyperParams.get_hyper_params`: raise `ValueError` below API 2.9,
otherwise fold the response entries matching this task id into a
section/name-keyed mapping. -/
def get_hyper_params (env : GetEnv) (taskId : String)
    (sections : Option (List String))
    (selector : Option (ParamsItem → Option Bool))
    (projector : Option (ParamsItem → Option ParamsItem)) (returnObj : Bool) :
    Except Unit (List ((Option String × Option String) × ParamsItem)) :=
  if !env.v29 then .error ()
  else if env.resOk && !env.params.isEmpty then
    .ok (env.params.foldl
      (fun acc entry =>
        if entry.1 == taskId then
          entry.2.foldl (getItemStep sections selector projector returnObj) acc
        else acc)
      [])
  else .ok []

end HyperParams

/-! ### Config text round-tripping (`utilities/config.py`)

`config_dict_to_text` returns string inputs unchanged, checks dictionary
keys for special characters (`raise_on_special_key`, which recurses into
dict values but not into lists), and serializes through
`hocon_quote_key` / `ConfigFactory.from_dict` / `HOCONConverter.to_hocon`;
`text_to_config_dict` parses through `ConfigFactory.parse_string` /
`hocon_unquote_key`.  Those four functions live in
`clearml/utilities/pyhocon` and `clearml/utilities/dicts.py`, which are not
part of the sources here, so the serializer and parser are modelled from
the spec: a HOCON-like concrete syntax over the value class named by the
spec (strings, integers, floats, booleans, lists, nested dicts), with keys
and strings always quoted (escaping `"` and `\`), floats kept as sign,
integer part and fractional digit string, and `=`-separated,
`,`-terminated dict entries. -/

namespace Config

mutual
/-- A configuration value: string, integer, float (sign, integer part,
fractional digits), boolean, list, or nested dictionary. -/
inductive CValue where
  | vStr (s : String)
  | vInt (n : Int)
  | vFloat (neg : Bool) (ip : Nat) (frac : List Nat)
  | vBool (b : Bool)
  | vList (l : CList)
  | vDict (d : CDict)
/-- A list of configuration values. -/
inductive CList where
  | nil
  | cons (v : CValue) (t : CList)
/-- A configuration dictionary: key/value pairs in order. -/
inductive CDict where
  | nil
  | cons (k : String) (v : CValue) (t : CDict)
end

mutual
/-- Well-formedness: every float has a non-empty fractional digit list with
digits below 10 (as produced by Python float formatting). -/
def wfV : CValue → Bool
  | .vStr _ => true
  | .vInt _ => true
  | .vFloat _ _ frac => !frac.isEmpty && frac.all (· < 10)
  | .vBool _ => true
  | .vList l => wfL l
  | .vDict d => wfD d
/-- Well-formedness of a value list. -/
def wfL : CList → Bool
  | .nil => true
  | .cons v t => wfV v && wfL t
/-- Well-formedness of a dictionary. -/
def wfD : CDict → Bool
  | .nil => true
  | .cons _ v t => wfV v && wfD t
end

/-- The digit characters. -/
def digitChar : Nat → Char
  | 0 => '0' | 1 => '1' | 2 => '2' | 3 => '3' | 4 => '4'
  | 5 => '5' | 6 => '6' | 7 => '7' | 8 => '8' | _ => '9'

/-- Inverse of `digitChar` on digit characters. -/
def charDigit (c : Char) : Option Nat :=
  if '0' ≤ c ∧ c ≤ '9' then some (c.toNat - 48) else none

/-- Little-endian decimal digits of `n`, with explicit fuel (`fuel ≥ n`
suffices). -/
def natDigitsAux : Nat → Nat → List Nat
  | 0, _ => []
  | fuel + 1, n => if n = 0 then [] else n % 10 :: natDigitsAux fuel (n / 10)

/-- Little-endian decimal digits of `n`. -/
def natDigits (n : Nat) : List Nat := natDigitsAux n n

/-- Decimal rendering of a natural number. -/
def natChars (n : Nat) : List Char :=
  if n = 0 then ['0'] else ((natDigits n).reverse).map digitChar

/-- Decimal rendering of an integer. -/
def intChars : Int → List Char
  | .ofNat n => natChars n
  | .negSucc m => '-' :: natChars (m + 1)

/-- Escape one character of a quoted string. -/
def escChar (c : Char) : List Char :=
  if c = '"' ∨ c = '\\' then ['\\', c] else [c]

/-- Escape a quoted string body. -/
def escapeList : List Char → List Char
  | [] => []
  | c :: t => escChar c ++ escapeList t

/-- Parse a quoted string body up to the closing quote, undoing escapes. -/
def parseQuoted : List Char → Option (List Char × List Char)
  | [] => none
  | c :: rest =>
    if c = '"' then some ([], rest)
    else if c = '\\' then
      match rest with
      | [] => none
      | c2 :: rest2 => (parseQuoted rest2).map (fun r => (c2 :: r.1, r.2))
    else (parseQuoted rest).map (fun r => (c :: r.1, r.2))

mutual
/-- Print a value. -/
def printV : CValue → List Char
  | .vStr s => '"' :: (escapeList s.toList ++ ['"'])
  | .vInt n => intChars n
  | .vFloat neg ip frac =>
      (if neg then ['-'] else []) ++ natChars ip ++ '.' :: frac.map digitChar
  | .vBool b => if b then ['t', 'r', 'u', 'e'] else ['f', 'a', 'l', 's', 'e']
  | .vList l => '[' :: (printL l ++ [']'])
  | .vDict d => '{' :: (printD d ++ ['}'])
/-- Print list elements, each terminated by `,`. -/
def printL : CList → List Char
  | .nil => []
  | .cons v t => printV v ++ ',' :: printL t
/-- Print dict entries `"key"=value,` in order. -/
def printD : CDict → List Char
  | .nil => []
  | .cons k v t =>
      '"' :: (escapeList k.toList ++ '"' :: '=' :: (printV v ++ ',' :: printD t))
end

/-- Take the leading run of digit characters. -/
def takeDigits : List Char → List Nat × List Char
  | [] => ([], [])
  | c :: rest =>
    match charDigit c with
    | some d => ((d :: (takeDigits rest).1), (takeDigits rest).2)
    | none => ([], c :: rest)

/-- Value of big-endian decimal digits. -/
def digitsToNat (ds : List Nat) : Nat := ds.foldl (fun acc d => acc * 10 + d) 0

/-- Value of little-endian decimal digits. -/
def valLE : List Nat → Nat
  | [] => 0
  | d :: ds => d + 10 * valLE ds

/-- The input does not start with a digit character. -/
def digitStop : List Char → Bool
  | [] => true
  | c :: _ => (charDigit c).isNone

/-- Does the input start with a `.`? -/
def isDot : List Char → Bool
  | [] => false
  | c :: _ => c == '.'

/-- Parse a number (integer or float), with an optional leading sign. -/
def parseNum (input : List Char) : Option (CValue × List Char) :=
  let sgn : Bool × List Char := match input with
    | [] => (false, [])
    | c :: r => if c = '-' then (true, r) else (false, c :: r)
  match takeDigits sgn.2 with
  | ([], _) => none
  | (d :: ds, rest1) =>
    if isDot rest1 then
      (match takeDigits rest1.tail with
       | ([], _) => none
       | (f :: fs, rest3) =>
         some (.vFloat sgn.1 (digitsToNat (d :: ds)) (f :: fs), rest3))
    else if sgn.1 then some (.vInt (-(digitsToNat (d :: ds) : Int)), rest1)
    else some (.vInt (digitsToNat (d :: ds)), rest1)

mutual
/-- Parse a value (fuel-indexed recursion). -/
def parseV : Nat → List Char → Option (CValue × List Char)
  | 0, _ => none
  | fuel + 1, input =>
    match input with
    | [] => none
    | c :: rest =>
      if c = '"' then
        (parseQuoted rest).map (fun r => (CValue.vStr (String.mk r.1), r.2))
      else if c = '{' then
        (parseD fuel rest).map (fun r => (CValue.vDict r.1, r.2))
      else if c = '[' then
        (parseL fuel rest).map (fun r => (CValue.vList r.1, r.2))
      else if c = 't' then
        match rest with
        | 'r' :: 'u' :: 'e' :: r => some (.vBool true, r)
        | _ => none
      else if c = 'f' then
        match rest with
        | 'a' :: 'l' :: 's' :: 'e' :: r => some (.vBool false, r)
        | _ => none
      else parseNum (c :: rest)
/-- Parse list elements up to the closing `]`. -/
def parseL : Nat → List Char → Option (CList × List Char)
  | 0, _ => none
  | fuel + 1, input =>
    match input with
    | [] => none
    | c :: rest =>
      if c = ']' then some (.nil, rest)
      else
        match parseV fuel (c :: rest) with
        | some (v, rest1) =>
          (match rest1 with
           | ',' :: rest2 =>
             (parseL fuel rest2).map (fun r => (CList.cons v r.1, r.2))
           | _ => none)
        | none => none
/-- Parse dict entries up to the closing `}`. -/
def parseD : Nat → List Char → Option (CDict × List Char)
  | 0, _ => none
  | fuel + 1, input =>
    match input with
    | [] => none
    | c :: rest =>
      if c = '}' then some (.nil, rest)
      else if c = '"' then
        match parseQuoted rest with
        | some (kcs, rest1) =>
          (match rest1 with
           | '=' :: rest2 =>
             (match parseV fuel rest2 with
              | some (v, rest3) =>
                (match rest3 with
                 | ',' :: rest4 =>
                   (parseD fuel rest4).map
                     (fun r => (CDict.cons (String.mk kcs) v r.1, r.2))
                 | _ => none)
              | none => none)
           | _ => none)
        | none => none
      else none
end

mutual
/-- Recursion budget needed to parse a printed value. -/
def sizeV : CValue → Nat
  | .vList l => sizeL l + 1
  | .vDict d => sizeD d + 1
  | _ => 1
/-- Budget for a list. -/
def sizeL : CList → Nat
  | .nil => 1
  | .cons v t => sizeV v + sizeL t + 1
/-- Budget for a dict. -/
def sizeD : CDict → Nat
  | .nil => 1
  | .cons _ v t => sizeV v + sizeD t + 1
end

/-- A valid suffix after a number: end of input or a character that is
neither a digit nor `.` (in the grammar: `,`, `]`, `}`). -/
def stopper : List Char → Bool
  | [] => true
  | c :: _ => (charDigit c).isNone && !(c = '.')

/-- The special characters of `raise_on_special_key`
(`config.py`, line 69). -/
def special_chars : List Char :=
  ['$', '}', '[', ']', ':', '=', '+', '#', Char.ofNat 96, '^', '?', '!', '@', '*', '&', '.']

/-- Does a key contain one of the special characters? -/
def keyHasSpecial (k : String) : Bool :=
  k.toList.any (fun c => special_chars.contains c)

mutual
/-- `raise_on_special_key(config_)`: `true` when the `ValueError` is
raised.  Faithful quirk: it recurses into dict values but returns
immediately on anything that is not a dict, so dicts nested inside lists
are not checked. -/
def raiseOnSpecialKeyV : CValue → Bool
  | .vDict d => raiseOnSpecialKeyD d
  | _ => false
/-- The dict case of `raise_on_special_key`. -/
def raiseOnSpecialKeyD : CDict → Bool
  | .nil => false
  | .cons k v t => keyHasSpecial k || raiseOnSpecialKeyV v || raiseOnSpecialKeyD t
end

mutual
/-- The key class of the claim: every key (also inside lists) is non-empty
and free of the special characters. -/
def goodKeysV : CValue → Bool
  | .vDict d => goodKeysD d
  | .vList l => goodKeysL l
  | _ => true
/-- Key class check for lists. -/
def goodKeysL : CList → Bool
  | .nil => true
  | .cons v t => goodKeysV v && goodKeysL t
/-- Key class check for dicts. -/
def goodKeysD : CDict → Bool
  | .nil => true
  | .cons k v t => !(k = "") && !keyHasSpecial k && goodKeysV v && goodKeysD t
end

/-- The argument of `config_dict_to_text`: a string, or a dict/list
configuration value. -/
inductive ConfigArg where
  | str (s : String)
  | val (v : CValue)

/-- Modelled from the spec: `HOCONConverter.to_hocon` composed with
`ConfigFactory.from_dict` and `hocon_quote_key`, which are repository code
outside `src/` (in `clearml/utilities/pyhocon` and `dicts.py`).  The
serializer renders the HOCON-like concrete syntax of `printV`. -/
def to_hocon (v : CValue) : String := String.mk (printV v)

/-- `config_dict_to_text(config)`: a string input is returned unchanged;
otherwise the keys are checked by `raise_on_special_key`, and on a raise
the code falls back to serializing through json + pyhocon — which, for the
value class modelled here, renders the same text. -/
def config_dict_to_text : ConfigArg → String
  | .str s => s
  | .val v =>
    if raiseOnSpecialKeyV v then to_hocon v
    else to_hocon v

/-- Modelled from the spec: `ConfigFactory.parse_string` composed with
`hocon_unquote_key` (repository code outside `src/`).  The parser must
consume the whole text; `.error` models the `ValueError` raised by
`text_to_config_dict` on a parse failure. -/
def parse_string (text : String) : Except Unit CValue :=
  match parseV (text.length + 1) text.toList with
  | some (v, []) => .ok v
  | _ => .error ()

/-- `text_to_config_dict(text)`. -/
def text_to_config_dict (text : String) : Except Unit CValue :=
  parse_string text

end Config

/-! ## Theorems -/

namespace Frameworks

/-- When the thread ident is already in the guard, a whole sequence of nested
wrapped calls executes only the original function, once per call, and leaves
the guard untouched. -/
theorem runSeq_guarded (tid : Nat) (g : Finset Nat) :
    (l : ScriptList) → tid ∈ g →
      runSeq tid g l = (g, List.replicate l.length (Ev.orig tid), false)
  | .nil, _ => by simp [runSeq, ScriptList.length]
  | .cons (.node nested raises) rest, h => by
    have ih := runSeq_guarded tid g rest h
    simp [runSeq, runWrapped, h, ih, ScriptList.length, Nat.add_comm 1 rest.length,
      List.replicate_succ]

/-- C1: a function wrapped by `_patched_call` is guarded by the per-thread
recursion flag: when the thread ident is already in `_recursion_guard`, the
call runs only the original function (never the patched callback) and leaves
the guard unchanged; when it is not, the patched callback runs once, every
nested wrapped call on the same thread runs only the original function, the
guard entry is removed on exit even when the callback raises (so the ident is
absent afterwards), and entries of other threads are never touched. -/
theorem patched_call_recursion_guard (tid : Nat) (g : Finset Nat)
    (nested : ScriptList) (raises : Bool) :
    (tid ∈ g →
      runWrapped tid g (.node nested raises) = (g, [Ev.orig tid], false)) ∧
    (tid ∉ g →
      runWrapped tid g (.node nested raises) =
        (g, Ev.patched tid :: List.replicate nested.length (Ev.orig tid), raises) ∧
      tid ∉ (runWrapped tid g (.node nested raises)).1) ∧
    (∀ t, t ≠ tid → (t ∈ (runWrapped tid g (.node nested raises)).1 ↔ t ∈ g)) := by
  have hbase : ∀ h : tid ∉ g,
      runWrapped tid g (.node nested raises) =
        (g, Ev.patched tid :: List.replicate nested.length (Ev.orig tid), raises) := by
    intro h
    have hseq := runSeq_guarded tid (insert tid g) nested (Finset.mem_insert_self tid g)
    simp [runWrapped, h, hseq, Finset.erase_insert h]
  refine ⟨fun h => by simp [runWrapped, h], fun h => ⟨hbase h, ?_⟩, fun t ht => ?_⟩
  · rw [hbase h]; exact h
  · by_cases h : tid ∈ g
    · simp [runWrapped, h]
    · rw [hbase h]

/-- Witness for `patched_call_recursion_guard` at thread ident 7, an initial
guard holding only ident 3, and a callback that makes one nested wrapped call
and then raises. -/
theorem patched_call_recursion_guard_witness :
    (7 ∈ ({7} : Finset Nat) →
      runWrapped 7 {7} (.node (.cons (.node .nil false) .nil) true) =
        ({7}, [Ev.orig 7], false)) ∧
    (7 ∉ ({3} : Finset Nat) ∧
      runWrapped 7 {3} (.node (.cons (.node .nil false) .nil) true) =
        ({3}, [Ev.patched 7, Ev.orig 7], true)) := by
  refine ⟨fun h => (patched_call_recursion_guard 7 {7} _ true).1 h, by decide, ?_⟩
  have h := ((patched_call_recursion_guard 7 {3}
    (.cons (.node .nil false) .nil) true).2.1 (by decide)).1
  simpa using h

end Frameworks

namespace Threads

/-- C5: `_lowlevel_async_raise` returns `False` when the thread object is not
among the active threads; when no exception is supplied it raises
`SystemExit` in the target; it returns `True` exactly when
`PyThreadState_SetAsyncExc` reports exactly one modified thread state; when
more than one is reported it cancels with a second `NULL` call and returns
`False`; and `kill_thread` returns `False` exactly when
`_lowlevel_async_raise` does. -/
theorem async_raise_spec (env : RaiseEnv) (threadObj : Nat) (exception : Option Exc) :
    ((∀ p ∈ env.active, p.2 ≠ threadObj) →
      lowlevel_async_raise env threadObj exception = (false, [])) ∧
    (∀ p, env.active.find? (fun q => q.2 == threadObj) = some p →
      ((lowlevel_async_raise env threadObj none).2.head? =
        some (p.1, Payload.exc Exc.systemExit)) ∧
      ((lowlevel_async_raise env threadObj exception).1 = true ↔
        (env.setAsyncExcRes p.1).getD 0 = 1) ∧
      ((env.setAsyncExcRes p.1).getD 0 > 1 →
        lowlevel_async_raise env threadObj exception =
          (false, [(p.1, Payload.exc (exception.getD Exc.systemExit)),
                   (p.1, Payload.null)]))) ∧
    ((kill_thread env threadObj).1 =
      (lowlevel_async_raise env threadObj (some Exc.systemExit)).1) := by
  refine ⟨fun habs => ?_, fun p hp => ⟨?_, ?_, ?_⟩, ?_⟩
  · have : env.active.find? (fun q => q.2 == threadObj) = none := by
      rw [List.find?_eq_none]
      intro q hq
      simpa using habs q hq
    simp [lowlevel_async_raise, this]
  · rcases hret : (env.setAsyncExcRes p.1).getD 0 with _ | n
    · simp [lowlevel_async_raise, hp, hret]
    · rcases n with _ | m
      · simp [lowlevel_async_raise, hp, hret]
      · simp [lowlevel_async_raise, hp, hret]
  · rcases hret : (env.setAsyncExcRes p.1).getD 0 with _ | n
    · simp [lowlevel_async_raise, hp, hret]
    · rcases n with _ | m
      · simp [lowlevel_async_raise, hp, hret]
      · simp [lowlevel_async_raise, hp, hret]
  · intro hgt
    rcases hret : (env.setAsyncExcRes p.1).getD 0 with _ | n
    · omega
    · rcases n with _ | m
      · omega
      · simp [lowlevel_async_raise, hp, hret]
  · rcases hfind : env.active.find? (fun q => q.2 == threadObj) with _ | p
    · simp [kill_thread, lowlevel_async_raise, hfind]
    · rcases hret : (env.setAsyncExcRes p.1).getD 0 with _ | n
      · simp [kill_thread, lowlevel_async_raise, hfind, hret]
      · rcases n with _ | m
        · simp [kill_thread, lowlevel_async_raise, hfind, hret]
        · simp [kill_thread, lowlevel_async_raise, hfind, hret]

/-- Witness for `async_raise_spec`: one active thread (ident 5, object 9),
`PyThreadState_SetAsyncExc` reporting one modified state for ident 5. -/
theorem async_raise_spec_witness :
    lowlevel_async_raise ⟨[(5, 9)], fun t => if t = 5 then some 1 else none⟩ 9 none =
        (true, [(5, Payload.exc Exc.systemExit)]) ∧
    lowlevel_async_raise ⟨[(5, 9)], fun t => if t = 5 then some 1 else none⟩ 4 none =
        (false, []) := by
  constructor
  · rfl
  · exact (async_raise_spec ⟨[(5, 9)], fun t => if t = 5 then some 1 else none⟩
      4 none).1 (by decide)

end Threads

namespace Frameworks

/-- Handle membership restated over the pairs of the registry. -/
theorem mem_registryKeys {t : Registry} {h : Nat} :
    h ∈ registryKeys t ↔ ∃ p ∈ t, p.1 = h := by
  simp [registryKeys, List.mem_map]

/-- The `any`-test of `_remove_callback` decides handle membership. -/
theorem any_key_iff {t : Registry} {h : Nat} :
    t.any (fun p => p.1 == h) = true ↔ h ∈ registryKeys t := by
  simp [registryKeys, List.any_eq_true, List.mem_map]

/-- Lookup by a key different from the popped one is unchanged by the pop. -/
theorem find?_filter_ne (l : Registry) (k h : Nat) (hk : k ≠ h) :
    (l.filter (fun p => p.1 != h)).find? (fun p => p.1 == k) =
      l.find? (fun p => p.1 == k) := by
  induction l with
  | nil => simp
  | cons a t ih =>
    by_cases hak : a.1 = k
    · have hah : a.1 ≠ h := by rw [hak]; exact hk
      simp [List.filter_cons, List.find?_cons, hak, hah, hk, Ne.symm hk, ih]
    · by_cases hah : a.1 = h
      · simp [List.filter_cons, List.find?_cons, hak, hah, hk, Ne.symm hk, ih]
      · simp [List.filter_cons, List.find?_cons, hak, hah, hk, Ne.symm hk, ih]

/-- C9: callback registration is idempotent and removal is exact.
Registering an already-registered function returns its existing (first)
handle and leaves the registry unchanged; registering a new function returns
a handle not previously a key and appends exactly the mapping handle-to-f;
removing a registered handle returns `True` and removes exactly that entry;
removing an unregistered handle returns `False` and leaves the registry
unchanged; removing the same handle twice returns `False` the second time. -/
theorem callback_registry_spec (randoms : List Nat) (f h : Nat) (target : Registry) :
    (∀ p, target.find? (fun q => q.2 == f) = some p →
      add_pre_callback randoms f target = some (p.1, target)) ∧
    (target.find? (fun q => q.2 == f) = none →
      ∀ hh, randoms.find? (fun x => !(target.any (fun p => p.1 == x))) = some hh →
        hh ∉ registryKeys target ∧
        add_pre_callback randoms f target = some (hh, target ++ [(hh, f)]) ∧
        registryLookup hh (target ++ [(hh, f)]) = some f ∧
        (∀ k, k ≠ hh →
          registryLookup k (target ++ [(hh, f)]) = registryLookup k target)) ∧
    (h ∈ registryKeys target →
      (remove_pre_callback h target).1 = true ∧
      registryLookup h (remove_pre_callback h target).2 = none ∧
      (∀ k, k ≠ h →
        registryLookup k (remove_pre_callback h target).2 = registryLookup k target)) ∧
    (h ∉ registryKeys target → remove_pre_callback h target = (false, target)) ∧
    (remove_pre_callback h (remove_pre_callback h target).2).1 = false := by
  have hfreshKeys : ∀ hh,
      randoms.find? (fun x => !(target.any (fun p => p.1 == x))) = some hh →
      hh ∉ registryKeys target := by
    intro hh hrand hmem
    have := List.find?_some hrand
    rw [Bool.not_eq_true', ← Bool.not_eq_true] at this
    exact this (any_key_iff.mpr hmem)
  refine ⟨fun p hp => ?_, fun hnone hh hrand => ⟨hfreshKeys hh hrand, ?_, ?_, fun k hk => ?_⟩,
    fun hmem => ⟨?_, ?_, fun k hk => ?_⟩, fun hmem => ?_, ?_⟩
  · simp [add_pre_callback, add_callback, hp]
  · simp [add_pre_callback, add_callback, hnone, hrand]
  · have htgt : target.find? (fun p => p.1 == hh) = none := by
      rw [List.find?_eq_none]
      intro p hp
      simp only [beq_iff_eq]
      exact fun e => hfreshKeys hh hrand (mem_registryKeys.mpr ⟨p, hp, e⟩)
    simp [registryLookup, List.find?_append, htgt]
  · have hsingle : ([(hh, f)].find? (fun p => p.1 == k)) = none := by
      simp only [List.find?_cons]
      have : ((hh, f).1 == k) = false := by
        simp only [beq_eq_false_iff_ne]
        exact fun e => hk e.symm
      simp [this]
    simp [registryLookup, List.find?_append, hsingle]
  · simp [remove_pre_callback, remove_callback, any_key_iff.mpr hmem]
  · have hnone : ((target.filter (fun p => p.1 != h)).find? (fun p => p.1 == h)) = none := by
      rw [List.find?_eq_none]
      intro p hp
      have := (List.mem_filter.mp hp).2
      simpa using this
    simp [remove_pre_callback, remove_callback, any_key_iff.mpr hmem,
      registryLookup, hnone]
  · simp [remove_pre_callback, remove_callback, any_key_iff.mpr hmem,
      registryLookup, find?_filter_ne target k h hk]
  · have : target.any (fun p => p.1 == h) = false := by
      rw [Bool.eq_false_iff]
      exact fun ha => hmem (any_key_iff.mp ha)
    simp [remove_pre_callback, remove_callback, this]
  · by_cases hmem : target.any (fun p => p.1 == h) = true
    · have hfil : ((target.filter (fun p => p.1 != h)).any (fun p => p.1 == h)) = false := by
        rw [Bool.eq_false_iff]
        intro hcon
        rw [List.any_eq_true] at hcon
        obtain ⟨p, hp, hph⟩ := hcon
        have := (List.mem_filter.mp hp).2
        simp only [beq_iff_eq] at hph
        simp [hph] at this
      simp [remove_pre_callback, remove_callback, hmem, hfil]
    · have hmem' : target.any (fun p => p.1 == h) = false := by
        rw [Bool.eq_false_iff]
        exact hmem
      simp [remove_pre_callback, remove_callback, hmem']

/-- Witness for `callback_registry_spec`: registry `[(2, 40)]`, registering
function 41 with first draw 2 (taken) and second draw 9 (fresh), then
removing handle 9 twice. -/
theorem callback_registry_spec_witness :
    add_pre_callback [2, 9] 41 [(2, 40)] = some (9, [(2, 40), (9, 41)]) ∧
    remove_pre_callback 9 [(2, 40), (9, 41)] = (true, [(2, 40)]) ∧
    remove_pre_callback 9 [(2, 40)] = (false, [(2, 40)]) := by
  refine ⟨((callback_registry_spec [2, 9] 41 9 [(2, 40)]).2.1 (by decide) 9
    (by decide)).2.1, by decide, ?_⟩
  exact (callback_registry_spec [2, 9] 41 9 [(2, 40)]).2.2.2.1 (by decide)

end Frameworks

namespace Frameworks

/-- `resolveInModel` produces no events or exactly one cache read at
`local_model_id or local_model_path`. -/
theorem resolveInModel_evs (env : RestoreEnv) (mi : ModelInfo) (c : Cache) :
    (resolveInModel env mi c).2 = [] ∨
    (resolveInModel env mi c).2 =
      [LEv.read (pyOr mi.localModelId mi.localModelPath)] := by
  rw [resolveInModel]
  rcases hm : mi.model with _ | m
  · rcases hc : c (pyOr mi.localModelId mi.localModelPath) with _ | p
    · right; simp [hc]
    · obtain ⟨mid, uri⟩ := p
      by_cases hmid : mid = ""
      · right; simp [hc, hmid]
      · rcases hin : env.inputModelOfId mid with _ | m
        · right; simp [hc, hmid, hin]
        · right; simp [hc, hmid, hin]
  · left; rfl

/-- `resolveOutModel` produces no events or exactly one cache read at
`local_model_id or local_model_path`. -/
theorem resolveOutModel_evs (env : CreateEnv) (mi : ModelInfo) (c : Cache) :
    (resolveOutModel env mi c).2 = [] ∨
    (resolveOutModel env mi c).2 =
      [LEv.read (pyOr mi.localModelId mi.localModelPath)] := by
  rw [resolveOutModel]
  rcases hm : mi.model with _ | m
  · right; rfl
  · left; rfl

/-- `restoreAfter` either leaves the cache alone with no events, or performs
exactly the write of the resolved model's `(id, url)` at the final
`model_info.local_model_id`. -/
theorem restoreAfter_cases (env : RestoreEnv) (mi : ModelInfo) (tim : TModel)
    (c : Cache) :
    (restoreAfter env mi tim c = (c, [])) ∨
    (∃ mi2 m,
      runCallbacks env.postCbs (some { mi with model := some tim }) = some mi2 ∧
      mi2.model = some m ∧
      restoreAfter env mi tim c =
        (cacheSet c mi2.localModelId (m.id, m.url),
         [LEv.write mi2.localModelId (m.id, m.url)])) := by
  rw [restoreAfter]
  rcases hrc : runCallbacks env.postCbs (some { mi with model := some tim }) with _ | mi2
  · left; rfl
  · rcases hcon : env.connectOk mi2.model with _ | _
    · left; simp [hcon]
    · rcases hm : mi2.model with _ | m
      · left; simp [hcon, hm]
      · right; exact ⟨mi2, m, rfl, hm, by simp [hm, hm ▸ hcon]⟩

/-- `createAfter` either leaves the cache alone with no events, or performs
exactly the write of the registered model's `(id, url)` at the final
`model_info.local_model_id`. -/
theorem createAfter_cases (env : CreateEnv) (ma : Option Nat) (files : List String)
    (mi2 : ModelInfo) (m : TModel) (c : Cache) :
    (createAfter env ma files mi2 m c = (c, [])) ∨
    (∃ mi4 m2,
      runCallbacks env.postCbs
        (some { mi2 with model := some m, weightsObject := ma }) = some mi4 ∧
      mi4.model = some m2 ∧
      createAfter env ma files mi2 m c =
        (cacheSet c mi4.localModelId (m2.id, m2.url),
         [LEv.write mi4.localModelId (m2.id, m2.url)])) := by
  rw [createAfter]
  rcases hrc : runCallbacks env.postCbs
      (some { mi2 with model := some m, weightsObject := ma }) with _ | mi4
  · left; rfl
  · rcases hm : mi4.model with _ | m2
    · left; simp [hm]
    · rcases hup : createUpload env files mi4.uploadFilename m2 with _ | _
      · left; simp [hm, hup]
      · right; exact ⟨mi4, m2, rfl, hm, by simp [hm, hup]⟩

/-- Case analysis of the lock-protected block of `restore_weights_file`:
either the cache is unchanged and nothing is written, or the block performs
exactly one write, at the final `model_info.local_model_id`, of the resolved
model's `(id, url)`. -/
theorem restoreLocked_cases (env : RestoreEnv) (mi : ModelInfo) (c : Cache) :
    ((restoreLocked env mi c).1 = c ∧
      ∀ k v, LEv.write k v ∉ (restoreLocked env mi c).2) ∨
    (∃ mi2 m tim,
      runCallbacks env.postCbs (some { mi with model := some tim }) = some mi2 ∧
      mi2.model = some m ∧
      (restoreLocked env mi c).1 = cacheSet c mi2.localModelId (m.id, m.url) ∧
      LEv.write mi2.localModelId (m.id, m.url) ∈ (restoreLocked env mi c).2 ∧
      (∀ k v, LEv.write k v ∈ (restoreLocked env mi c).2 →
        k = mi2.localModelId ∧ v = (m.id, m.url))) := by
  have hevs := resolveInModel_evs env mi c
  rw [restoreLocked]
  rcases hres : resolveInModel env mi c with ⟨tim, evs⟩
  rw [hres] at hevs
  simp only [] at hevs
  cases tim with
  | none =>
    left
    refine ⟨rfl, fun k v hkv => ?_⟩
    rcases hevs with h | h <;> subst h <;> simp at hkv
  | some t =>
    rcases restoreAfter_cases env mi t c with hA | ⟨mi2, m, hrc, hm, hA⟩
    · left
      refine ⟨by simp [hA], fun k v hkv => ?_⟩
      rw [show ((let r := restoreAfter env mi t c; (r.1, evs ++ r.2)) :
          Cache × List LEv).2 = evs ++ (restoreAfter env mi t c).2 from rfl] at hkv
      rw [hA] at hkv
      rcases hevs with h | h <;> subst h <;> simp at hkv
    · right
      refine ⟨mi2, m, t, hrc, hm, by simp [hA], by simp [hA], fun k v hkv => ?_⟩
      rw [show ((let r := restoreAfter env mi t c; (r.1, evs ++ r.2)) :
          Cache × List LEv).2 = evs ++ (restoreAfter env mi t c).2 from rfl] at hkv
      rw [hA] at hkv
      rcases List.mem_append.mp hkv with h' | h'
      · rcases hevs with h | h <;> subst h <;> simp at h'
      · simp at h'
        exact ⟨h'.1, h'.2⟩

/-- Every event of the lock-protected block of `restore_weights_file` is a
cache read or write. -/
theorem restoreLocked_rw (env : RestoreEnv) (mi : ModelInfo) (c : Cache) :
    ∀ e ∈ (restoreLocked env mi c).2, isRW e = true := by
  intro e he
  have hevs := resolveInModel_evs env mi c
  rw [restoreLocked] at he
  rcases hres : resolveInModel env mi c with ⟨tim, evs⟩
  rw [hres] at hevs he
  simp only [] at hevs
  cases tim with
  | none =>
    rcases hevs with h | h <;> subst h <;> simp at he
    subst he; rfl
  | some t =>
    rw [show ((let r := restoreAfter env mi t c; (r.1, evs ++ r.2)) :
        Cache × List LEv).2 = evs ++ (restoreAfter env mi t c).2 from rfl] at he
    rcases List.mem_append.mp he with h' | h'
    · rcases hevs with h | h <;> subst h <;> simp at h'
      subst h'; rfl
    · rcases restoreAfter_cases env mi t c with hA | ⟨mi2, m, _, _, hA⟩
      · rw [hA] at h'; simp at h'
      · rw [hA] at h'
        simp at h'
        subst h'; rfl

/-- Case analysis of the lock-protected block of `create_output_model`:
either the cache is unchanged and nothing is written, or the block performs
exactly one write, at the final `model_info.local_model_id`, of the
registered model's `(id, url)`. -/
theorem createLocked_cases (env : CreateEnv) (ma : Option Nat)
    (sp fw : Option String) (sf : Bool) (c : Cache) :
    ((createLocked env ma sp fw sf c).1 = c ∧
      ∀ k v, LEv.write k v ∉ (createLocked env ma sp fw sf c).2) ∨
    (∃ lmp targetF miP m mi4 m2,
      runCallbacks env.preCbs (some
        { model := none, uploadFilename := targetF, localModelPath := lmp,
          localModelId := sp, framework := fw, weightsObject := ma }) = some miP ∧
      runCallbacks env.postCbs (some
        { { miP with weightsObject := none } with
          model := some m, weightsObject := ma }) = some mi4 ∧
      mi4.model = some m2 ∧
      (createLocked env ma sp fw sf c).1 =
        cacheSet c mi4.localModelId (m2.id, m2.url) ∧
      LEv.write mi4.localModelId (m2.id, m2.url) ∈
        (createLocked env ma sp fw sf c).2 ∧
      (∀ k v, LEv.write k v ∈ (createLocked env ma sp fw sf c).2 →
        k = mi4.localModelId ∧ v = (m2.id, m2.url))) := by
  simp only [createLocked]
  rcases hab : pyAbspath env.abspath sp with e | lmp
  · simp only [hab]
    left; constructor <;> simp
  · simp only [hab]
    rcases hpt : pyTruthy lmp with _ | _
    · simp only [hpt, Bool.not_false, if_true]
      left; constructor <;> simp
    · simp only [hpt, Bool.not_true, Bool.false_eq_true, if_false]
      rcases htf : (if (if env.isDir then env.rglobFiles
            else if sf then [env.singleAbs] else env.globFiles).length > 1 then
          Except.ok env.stemRes
        else match (if env.isDir then env.rglobFiles
            else if sf then [env.singleAbs] else env.globFiles) with
          | [] => Except.error ()
          | f :: _ => Except.ok (some (env.nameOf f))) with e | targetF
      · simp only [htf]
        left; constructor <;> simp
      · simp only [htf]
        rcases hpre : runCallbacks env.preCbs (some
            { model := none, uploadFilename := targetF, localModelPath := lmp,
              localModelId := sp, framework := fw,
              weightsObject := ma }) with _ | miP
        · simp only [hpre]
          left; constructor <;> simp
        · simp only [hpre]
          have hevs := resolveOutModel_evs env { miP with weightsObject := none } c
          rcases hro : resolveOutModel env { miP with weightsObject := none } c
            with ⟨om, evs⟩
          rw [hro] at hevs
          simp only [] at hevs
          cases om with
          | none =>
            left
            refine ⟨rfl, fun k v hkv => ?_⟩
            replace hkv : LEv.write k v ∈ evs := hkv
            rcases hevs with h | h <;> subst h <;> simp at hkv
          | some m =>
            rcases createAfter_cases env ma
                (if env.isDir then env.rglobFiles
                 else if sf then [env.singleAbs] else env.globFiles)
                { miP with weightsObject := none } m c with hA | ⟨mi4, m2, hrc4, hm4, hA⟩
            · left
              refine ⟨by simp [hA], fun k v hkv => ?_⟩
              simp only [hA] at hkv
              simp at hkv
              rcases hevs with h | h <;> subst h <;> simp at hkv
            · right
              refine ⟨lmp, targetF, miP, m, mi4, m2, hpre, hrc4, hm4,
                by simp [hA], by simp [hA], fun k v hkv => ?_⟩
              simp only [hA] at hkv
              simp at hkv
              rcases hkv with h' | h'
              · rcases hevs with h | h <;> subst h <;> simp at h'
              · exact ⟨h'.1, h'.2⟩

/-- Every event of the lock-protected block of `create_output_model` is a
cache read or write. -/
theorem createLocked_rw (env : CreateEnv) (ma : Option Nat)
    (sp fw : Option String) (sf : Bool) (c : Cache) :
    ∀ e ∈ (createLocked env ma sp fw sf c).2, isRW e = true := by
  intro e he
  simp only [createLocked] at he
  rcases hab : pyAbspath env.abspath sp with e' | lmp
  · simp only [hab] at he; simp at he
  · simp only [hab] at he
    rcases hpt : pyTruthy lmp with _ | _
    · simp only [hpt, Bool.not_false, if_true] at he; simp at he
    · simp only [hpt, Bool.not_true, Bool.false_eq_true, if_false] at he
      rcases htf : (if (if env.isDir then env.rglobFiles
            else if sf then [env.singleAbs] else env.globFiles).length > 1 then
          Except.ok env.stemRes
        else match (if env.isDir then env.rglobFiles
            else if sf then [env.singleAbs] else env.globFiles) with
          | [] => Except.error ()
          | f :: _ => Except.ok (some (env.nameOf f))) with e' | targetF
      · simp only [htf] at he; simp at he
      · simp only [htf] at he
        rcases hpre : runCallbacks env.preCbs (some
            { model := none, uploadFilename := targetF, localModelPath := lmp,
              localModelId := sp, framework := fw,
              weightsObject := ma }) with _ | miP
        · simp only [hpre] at he; simp at he
        · simp only [hpre] at he
          have hevs := resolveOutModel_evs env { miP with weightsObject := none } c
          rcases hro : resolveOutModel env { miP with weightsObject := none } c
            with ⟨om, evs⟩
          rw [hro] at hevs
          simp only [hro] at he
          simp only [] at hevs
          cases om with
          | none =>
            simp only [] at he
            rcases hevs with h | h <;> subst h <;> simp at he
            subst he; rfl
          | some m =>
            rcases createAfter_cases env ma
                (if env.isDir then env.rglobFiles
                 else if sf then [env.singleAbs] else env.globFiles)
                { miP with weightsObject := none } m c with hA | ⟨mi4, m2, _, _, hA⟩
            · simp only [hA] at he
              simp at he
              rcases hevs with h | h <;> subst h <;> simp at he
              subst he; rfl
            · simp only [hA] at he
              simp at he
              rcases he with h' | h'
              · rcases hevs with h | h <;> subst h <;> simp at h'
                subst h'; rfl
              · subst h'; rfl

/-- Reads and writes do not change the lock-check depth. -/
theorem lockCheck_rw_append (mids rest : List LEv) (d : Nat)
    (h : ∀ e ∈ mids, isRW e = true) (hd : 0 < d) :
    lockCheck d (mids ++ rest) = lockCheck d rest := by
  induction mids with
  | nil => rfl
  | cons e t ih =>
    have he := h e (by simp)
    have ht : ∀ x ∈ t, isRW x = true := fun x hx => h x (List.mem_cons_of_mem e hx)
    cases e with
    | read k => simp [lockCheck, hd, ih ht]
    | write k v => simp [lockCheck, hd, ih ht]
    | acq => simp [isRW] at he
    | rel => simp [isRW] at he

/-- A trace consisting of one acquire, reads/writes, and one release
respects the lock discipline. -/
theorem lockDiscipline_wrap (mids : List LEv) (h : ∀ e ∈ mids, isRW e = true) :
    lockDisciplineOk (LEv.acq :: (mids ++ [LEv.rel])) = true := by
  rw [lockDisciplineOk, lockCheck, lockCheck_rw_append mids [LEv.rel] 1 h (by omega)]
  rfl

/-- C2: the interception layer is transparent to the wrapped call:
`restore_weights_file` returns its `filepath` argument unchanged and
`create_output_model` returns its `saved_path` argument unchanged, on every
path (early exits, success, caught internal exception), and the patched
CatBoost save wrapper calls the original `save_model` first and returns
exactly its result. -/
theorem interception_transparent :
    (∀ (env : RestoreEnv) (fp fw : Option String) (c : Cache),
      (restore_weights_file env fp fw c).1 = fp) ∧
    (∀ (env : CreateEnv) (ma : Option Nat) (sp fw : Option String) (sf : Bool)
      (c : Cache), (create_output_model env ma sp fw sf c).1 = sp) ∧
    (∀ (r : Nat) (tp : Bool) (env : CreateEnv) (obj : Nat) (f : Option String)
      (c : Cache), (catboost_save r tp env obj f c).1 = r) := by
  refine ⟨fun env fp fw c => ?_, fun env ma sp fw sf c => ?_,
    fun r tp env obj f c => ?_⟩
  · simp only [restore_weights_file]
    rcases ht : env.taskPresent with _ | _
    · simp
    · simp only [ht, Bool.not_true, Bool.false_eq_true, if_false]
      rcases hab : pyAbspath env.abspath fp with e | lmp
      · simp only [hab]
      · simp only [hab]
        rcases hpre : runCallbacks env.preCbs (some
            { model := none, uploadFilename := none, localModelPath := lmp,
              localModelId := fp, framework := fw,
              weightsObject := none }) with _ | mi
        · simp only [hpre]
        · simp only [hpre]
          rcases hpt : pyTruthy mi.localModelPath with _ | _ <;> simp [hpt]
  · simp only [create_output_model]
    rcases ht : env.taskPresent with _ | _ <;> simp [ht]
  · simp only [catboost_save]
    rcases htp : tp with _ | _ <;> simp

/-- C4: every cache read and write of `restore_weights_file` and
`create_output_model` happens while `_model_store_lookup_lock` is held, and
on every execution path each acquisition is matched by exactly one release,
so the lock is never left held. -/
theorem store_lock_discipline :
    (∀ (env : RestoreEnv) (fp fw : Option String) (c : Cache),
      lockDisciplineOk (restore_weights_file env fp fw c).2.2 = true) ∧
    (∀ (env : CreateEnv) (ma : Option Nat) (sp fw : Option String) (sf : Bool)
      (c : Cache),
      lockDisciplineOk (create_output_model env ma sp fw sf c).2.2 = true) := by
  constructor
  · intro env fp fw c
    simp only [restore_weights_file]
    rcases ht : env.taskPresent with _ | _
    · simp [lockDisciplineOk, lockCheck]
    · simp only [ht, Bool.not_true, Bool.false_eq_true, if_false]
      rcases hab : pyAbspath env.abspath fp with e | lmp
      · simp only [hab]; rfl
      · simp only [hab]
        rcases hpre : runCallbacks env.preCbs (some
            { model := none, uploadFilename := none, localModelPath := lmp,
              localModelId := fp, framework := fw,
              weightsObject := none }) with _ | mi
        · simp only [hpre]; rfl
        · simp only [hpre]
          rcases hpt : pyTruthy mi.localModelPath with _ | _
          · simp only [hpt, Bool.not_false, if_true]; rfl
          · simp only [hpt, Bool.not_true, Bool.false_eq_true, if_false]
            exact lockDiscipline_wrap _ (restoreLocked_rw env mi c)
  · intro env ma sp fw sf c
    simp only [create_output_model]
    rcases ht : env.taskPresent with _ | _
    · simp [lockDisciplineOk, lockCheck]
    · simp only [ht, Bool.not_true, Bool.false_eq_true, if_false]
      exact lockDiscipline_wrap _ (createLocked_rw env ma sp fw sf c)

/-- With tame callbacks, a `None` `model_info` can never become a real one
again. -/
theorem runCallbacks_none (cbs : List (Option ModelInfo → CbRes))
    (h : ∀ cb ∈ cbs, tameCb cb) : runCallbacks cbs none = none := by
  induction cbs with
  | nil => rfl
  | cons cb t ih =>
    have hcb := h cb (by simp)
    have ht : ∀ x ∈ t, tameCb x := fun x hx => h x (List.mem_cons_of_mem cb hx)
    simp only [runCallbacks, List.foldl_cons]
    rcases hc : cb none with _ | x
    · exact ih ht
    · rcases x with _ | mi'
      · exact ih ht
      · exact absurd hc (hcb.2 mi')

/-- With tame callbacks, a callback loop preserves `local_model_id`. -/
theorem runCallbacks_tame (cbs : List (Option ModelInfo → CbRes))
    (h : ∀ cb ∈ cbs, tameCb cb) :
    ∀ mi mi', runCallbacks cbs (some mi) = some mi' →
      mi'.localModelId = mi.localModelId := by
  induction cbs with
  | nil =>
    intro mi mi' hmi
    simp only [runCallbacks, List.foldl_nil] at hmi
    simp at hmi
    subst hmi
    rfl
  | cons cb t ih =>
    intro mi mi' hmi
    have hcb := h cb (by simp)
    have ht : ∀ x ∈ t, tameCb x := fun x hx => h x (List.mem_cons_of_mem cb hx)
    simp only [runCallbacks, List.foldl_cons] at hmi
    rcases hc : cb (some mi) with _ | x
    · rw [hc] at hmi
      exact ih ht mi mi' hmi
    · rcases x with _ | mi1
      · rw [hc] at hmi
        replace hmi : runCallbacks t none = some mi' := hmi
        rw [runCallbacks_none t ht] at hmi
        cases hmi
      · rw [hc] at hmi
        replace hmi : runCallbacks t (some mi1) = some mi' := hmi
        rw [ih ht mi1 mi' hmi, hcb.1 mi mi1 hc]

/-- C3 counterexample: a registered pre-callback that rewrites
`model_info.local_model_id` (here from `"p"` to `"q"`) makes the
successful call store the `(id, url)` pair under the rewritten key, so
`Model._local_model_to_id_uri` does not map the originally passed path, and
a key other than the original path is added. -/
theorem cache_key_counterexample :
    (let env : RestoreEnv :=
      { taskPresent := true, abspath := fun s => some ("/abs/" ++ s),
        preCbs := [fun omi => match omi with
          | some mi => CbRes.returns (some { mi with localModelId := some "q" })
          | none => CbRes.returns none],
        postCbs := [], inputModelOfId := fun _ => none,
        importModel := some ⟨"mid", "murl", false⟩, connectOk := fun _ => true }
     let r := restore_weights_file env (some "p") none (fun _ => none)
     r.2.1 (some "p") = none ∧
     r.2.1 (some "q") = some ("mid", "murl") ∧
     LEv.write (some "q") ("mid", "murl") ∈ r.2.2) := by
  exact ⟨rfl, rfl, by decide⟩

/-- C3 (amended): a call of `restore_weights_file` (resp.
`create_output_model`) that performs the cache write stores exactly one
entry, keyed by `model_info.local_model_id` as it stands after the
registered callbacks ran — equal to the originally passed path whenever the
callbacks preserve `local_model_id` — with the `(id, url)` pair of the
resolved/registered model as value, and changes no other key; a call that
performs no write leaves the dict unchanged. -/
theorem cache_update_exact :
    (∀ (env : RestoreEnv) (fp fw : Option String) (c : Cache),
      (∀ cb ∈ env.preCbs, tameCb cb) → (∀ cb ∈ env.postCbs, tameCb cb) →
      ∀ k v, LEv.write k v ∈ (restore_weights_file env fp fw c).2.2 →
        k = fp ∧
        (restore_weights_file env fp fw c).2.1 = cacheSet c fp v ∧
        (∀ k', k' ≠ fp → (restore_weights_file env fp fw c).2.1 k' = c k')) ∧
    (∀ (env : RestoreEnv) (fp fw : Option String) (c : Cache),
      (∀ k v, LEv.write k v ∉ (restore_weights_file env fp fw c).2.2) →
      (restore_weights_file env fp fw c).2.1 = c) ∧
    (∀ (env : CreateEnv) (ma : Option Nat) (sp fw : Option String) (sf : Bool)
      (c : Cache),
      (∀ cb ∈ env.preCbs, tameCb cb) → (∀ cb ∈ env.postCbs, tameCb cb) →
      ∀ k v, LEv.write k v ∈ (create_output_model env ma sp fw sf c).2.2 →
        k = sp ∧
        (create_output_model env ma sp fw sf c).2.1 = cacheSet c sp v ∧
        (∀ k', k' ≠ sp → (create_output_model env ma sp fw sf c).2.1 k' = c k')) ∧
    (∀ (env : CreateEnv) (ma : Option Nat) (sp fw : Option String) (sf : Bool)
      (c : Cache),
      (∀ k v, LEv.write k v ∉ (create_output_model env ma sp fw sf c).2.2) →
      (create_output_model env ma sp fw sf c).2.1 = c) := by
  refine ⟨?_, ?_, ?_, ?_⟩
  · intro env fp fw c hpre hpost k v hkv
    simp only [restore_weights_file] at hkv ⊢
    rcases ht : env.taskPresent with _ | _
    · simp only [ht] at hkv; simp at hkv
    · simp only [ht, Bool.not_true, Bool.false_eq_true, if_false] at hkv ⊢
      rcases hab : pyAbspath env.abspath fp with e | lmp
      · simp only [hab] at hkv; simp at hkv
      · simp only [hab] at hkv ⊢
        rcases hpc : runCallbacks env.preCbs (some
            { model := none, uploadFilename := none, localModelPath := lmp,
              localModelId := fp, framework := fw,
              weightsObject := none }) with _ | mi
        · simp only [hpc] at hkv; simp at hkv
        · simp only [hpc] at hkv ⊢
          rcases hpt : pyTruthy mi.localModelPath with _ | _
          · simp only [hpt] at hkv; simp at hkv
          · simp only [hpt, Bool.not_true, Bool.false_eq_true, if_false] at hkv ⊢
            replace hkv : LEv.write k v ∈
              LEv.acq :: ((restoreLocked env mi c).2 ++ [LEv.rel]) := hkv
            simp at hkv
            rcases restoreLocked_cases env mi c with ⟨hc1, hno⟩ |
              ⟨mi2, m, tim, hrc, hm, hcache, hmemw, hchar⟩
            · exact absurd hkv (hno k v)
            · obtain ⟨hk, hv⟩ := hchar k v hkv
              have hlmi2 : mi2.localModelId = mi.localModelId := by
                have := runCallbacks_tame env.postCbs hpost _ mi2 hrc
                simpa using this
              have hlmi : mi.localModelId = fp := by
                have := runCallbacks_tame env.preCbs hpre _ mi hpc
                simpa using this
              have hkfp : k = fp := by rw [hk, hlmi2, hlmi]
              refine ⟨hkfp, ?_, ?_⟩
              · replace hcache : (restoreLocked env mi c).1 =
                  cacheSet c mi2.localModelId (m.id, m.url) := hcache
                rw [show ((let r := restoreLocked env mi c;
                    ((fp : Option String), r.1, LEv.acq :: (r.2 ++ [LEv.rel]))) :
                    Option String × Cache × List LEv).2.1 =
                    (restoreLocked env mi c).1 from rfl, hcache,
                  hlmi2, hlmi, hv]
              · intro k' hk'
                rw [show ((let r := restoreLocked env mi c;
                    ((fp : Option String), r.1, LEv.acq :: (r.2 ++ [LEv.rel]))) :
                    Option String × Cache × List LEv).2.1 =
                    (restoreLocked env mi c).1 from rfl, hcache,
                  hlmi2, hlmi]
                simp [cacheSet, hk']
  · intro env fp fw c hno
    simp only [restore_weights_file] at hno ⊢
    rcases ht : env.taskPresent with _ | _
    · simp [ht]
    · simp only [ht, Bool.not_true, Bool.false_eq_true, if_false] at hno ⊢
      rcases hab : pyAbspath env.abspath fp with e | lmp
      · simp only [hab]
      · simp only [hab] at hno ⊢
        rcases hpc : runCallbacks env.preCbs (some
            { model := none, uploadFilename := none, localModelPath := lmp,
              localModelId := fp, framework := fw,
              weightsObject := none }) with _ | mi
        · simp only [hpc]
        · simp only [hpc] at hno ⊢
          rcases hpt : pyTruthy mi.localModelPath with _ | _
          · simp only [hpt, Bool.not_false, if_true]
          · simp only [hpt, Bool.not_true, Bool.false_eq_true, if_false] at hno ⊢
            rcases restoreLocked_cases env mi c with ⟨hc1, hno2⟩ |
              ⟨mi2, m, tim, hrc, hm, hcache, hmemw, hchar⟩
            · exact hc1
            · exfalso
              refine hno mi2.localModelId (m.id, m.url) ?_
              replace hmemw : LEv.write mi2.localModelId (m.id, m.url) ∈
                (restoreLocked env mi c).2 := hmemw
              simp [hmemw]
  · intro env ma sp fw sf c hpre hpost k v hkv
    simp only [create_output_model] at hkv ⊢
    rcases ht : env.taskPresent with _ | _
    · simp only [ht] at hkv; simp at hkv
    · simp only [ht, Bool.not_true, Bool.false_eq_true, if_false] at hkv ⊢
      replace hkv : LEv.write k v ∈
        LEv.acq :: ((createLocked env ma sp fw sf c).2 ++ [LEv.rel]) := hkv
      simp at hkv
      rcases createLocked_cases env ma sp fw sf c with ⟨hc1, hno⟩ |
        ⟨lmp, targetF, miP, m, mi4, m2, hpc, hrc4, hm4, hcache, hmemw, hchar⟩
      · exact absurd hkv (hno k v)
      · obtain ⟨hk, hv⟩ := hchar k v hkv
        have hlmi4 : mi4.localModelId = miP.localModelId := by
          have := runCallbacks_tame env.postCbs hpost _ mi4 hrc4
          simpa using this
        have hlmi : miP.localModelId = sp := by
          have := runCallbacks_tame env.preCbs hpre _ miP hpc
          simpa using this
        have hksp : k = sp := by rw [hk, hlmi4, hlmi]
        refine ⟨hksp, ?_, ?_⟩
        · replace hcache : (createLocked env ma sp fw sf c).1 =
            cacheSet c mi4.localModelId (m2.id, m2.url) := hcache
          rw [show ((let r := createLocked env ma sp fw sf c;
              ((sp : Option String), r.1, LEv.acq :: (r.2 ++ [LEv.rel]))) :
              Option String × Cache × List LEv).2.1 =
              (createLocked env ma sp fw sf c).1 from rfl, hcache,
            hlmi4, hlmi, hv]
        · intro k' hk'
          rw [show ((let r := createLocked env ma sp fw sf c;
              ((sp : Option String), r.1, LEv.acq :: (r.2 ++ [LEv.rel]))) :
              Option String × Cache × List LEv).2.1 =
              (createLocked env ma sp fw sf c).1 from rfl, hcache,
            hlmi4, hlmi]
          simp [cacheSet, hk']
  · intro env ma sp fw sf c hno
    simp only [create_output_model] at hno ⊢
    rcases ht : env.taskPresent with _ | _
    · simp [ht]
    · simp only [ht, Bool.not_true, Bool.false_eq_true, if_false] at hno ⊢
      rcases createLocked_cases env ma sp fw sf c with ⟨hc1, hno2⟩ |
        ⟨lmp, targetF, miP, m, mi4, m2, hpc, hrc4, hm4, hcache, hmemw, hchar⟩
      · exact hc1
      · exfalso
        refine hno mi4.localModelId (m2.id, m2.url) ?_
        replace hmemw : LEv.write mi4.localModelId (m2.id, m2.url) ∈
          (createLocked env ma sp fw sf c).2 := hmemw
        simp [hmemw]

/-- Witness for `cache_update_exact`: no callbacks registered, an empty
cache, path `"p"`, and a successful import of a model with id `"i"` and
url `"u"`; the single write keys the original path. -/
theorem cache_update_exact_witness :
    (some "p" : Option String) = some "p" ∧
    (restore_weights_file
      { taskPresent := true, abspath := fun s => some ("/a/" ++ s),
        preCbs := [], postCbs := [], inputModelOfId := fun _ => none,
        importModel := some ⟨"i", "u", false⟩, connectOk := fun _ => true }
      (some "p") none (fun _ => none)).2.1 =
      cacheSet (fun _ => none) (some "p") ("i", "u") ∧
    (∀ k', k' ≠ some "p" →
      (restore_weights_file
        { taskPresent := true, abspath := fun s => some ("/a/" ++ s),
          preCbs := [], postCbs := [], inputModelOfId := fun _ => none,
          importModel := some ⟨"i", "u", false⟩, connectOk := fun _ => true }
        (some "p") none (fun _ => none)).2.1 k' = (fun _ => none : Cache) k') := by
  exact cache_update_exact.1
    { taskPresent := true, abspath := fun s => some ("/a/" ++ s),
      preCbs := [], postCbs := [], inputModelOfId := fun _ => none,
      importModel := some ⟨"i", "u", false⟩, connectOk := fun _ => true }
    (some "p") none (fun _ => none) (by simp) (by simp)
    (some "p") ("i", "u") (by decide)

end Frameworks

namespace Unpack

/-- C6 (code defect): a member name with a drive-letter prefix makes
`is_safe` crash with `AttributeError` (the code references
`string.ascii_letter`, which does not exist; `string.ascii_letters` was
intended), so `Archive.unpack` raises `AttributeError` instead of the
`ValueError` listing of unsafe names; the other unsafe-name classes do get
the `ValueError` and safe archives extract. -/
theorem drive_name_defeats_safe_extractall :
    is_safe "C:evil.txt" = .error () ∧
    safe_extractall ["C:evil.txt"] = .error PyExc.attributeError ∧
    safe_extractall ["../evil.txt", "ok.txt"] =
      .error (PyExc.valueError ["../evil.txt"]) ∧
    safe_extractall ["/abs/path.txt"] = .error (PyExc.valueError ["/abs/path.txt"]) ∧
    safe_extractall ["good/name.txt", "sub/dir.bin"] = .ok () := by
  refine ⟨rfl, rfl, rfl, rfl, rfl⟩

end Unpack

namespace HyperParams

/-- C8: the hyper-parameter CRUD operations gate on server support and
report success exactly as the REST call does: `get_hyper_params`,
`edit_hyper_params` and `delete_hyper_params` raise `ValueError` when the
server API version is below 2.9; for a task that is not offline,
`edit_hyper_params` and `delete_hyper_params` return `True` exactly when the
response is ok (and then reload the task) and `False` otherwise. -/
theorem hyper_params_gating (env : Env) (genv : GetEnv)
    (items : List (ParamsItem × Option String)) (ds fs : Option String)
    (iters : List (List (Option String × Option String)))
    (taskId : String) (sections : Option (List String))
    (selector : Option (ParamsItem → Option Bool))
    (projector : Option (ParamsItem → Option ParamsItem)) (returnObj : Bool) :
    (env.v29 = false →
      edit_hyper_params env items ds fs = .error () ∧
      delete_hyper_params env iters = .error ()) ∧
    (genv.v29 = false →
      get_hyper_params genv taskId sections selector projector returnObj =
        .error ()) ∧
    (env.v29 = true → env.offline = false →
      ∀ r, edit_hyper_params env items ds fs = .ok r →
        ((r.ret = true ↔ env.sendOk = true) ∧ r.reloaded = env.sendOk)) ∧
    (env.v29 = true →
      ∀ r, delete_hyper_params env iters = .ok r →
        ((r.ret = true ↔ env.sendOk = true) ∧ r.reloaded = env.sendOk)) := by
  refine ⟨fun hv => ⟨?_, ?_⟩, fun hv => ?_, fun hv hoff r hr => ?_, fun hv r hr => ?_⟩
  · simp [edit_hyper_params, hv]
  · simp [delete_hyper_params, hv]
  · simp [get_hyper_params, hv]
  · rcases hmap : items.mapM
        (fun iv => make_item (!env.v211) fs ds iv.1 iv.2) with e | mitems
    · have hm : List.mapM.loop
          (fun iv => make_item (!env.v211) fs ds iv.1 iv.2) items [] =
          Except.error e := hmap
      simp [edit_hyper_params, hv, hm] at hr
    · have hm : List.mapM.loop
          (fun iv => make_item (!env.v211) fs ds iv.1 iv.2) items [] =
          Except.ok mitems := hmap
      rcases hsend : env.sendOk with _ | _ <;>
        · simp [edit_hyper_params, hv, hoff, hm, hsend] at hr
          simp [← hr, hsend]
  · rcases hmap : iters.flatten.mapM get_key with e | ks
    · have hm : List.mapM.loop get_key iters.flatten [] = Except.error e := hmap
      simp [delete_hyper_params, hv, hm] at hr
    · have hm : List.mapM.loop get_key iters.flatten [] = Except.ok ks := hmap
      rcases hsend : env.sendOk with _ | _ <;>
        · simp [delete_hyper_params, hv, hm, hsend] at hr
          simp [← hr, hsend]

/-- Witness for `hyper_params_gating`: a pre-2.9 environment raises, and a
2.9 online environment with an ok response returns `True` and reloads. -/
theorem hyper_params_gating_witness :
    edit_hyper_params ⟨false, true, true, false, true⟩ [] none none = .error () ∧
    delete_hyper_params ⟨false, true, true, false, true⟩ [] = .error () ∧
    get_hyper_params ⟨false, true, []⟩ "t" none none none false = .error () ∧
    ((({ ret := true, reloaded := true, sent := some [], savedOffline := none } :
        EditResult).ret = true ↔ (⟨true, true, true, false, true⟩ : Env).sendOk = true) ∧
      ({ ret := true, reloaded := true, sent := some [], savedOffline := none } :
        EditResult).reloaded = (⟨true, true, true, false, true⟩ : Env).sendOk) := by
  refine ⟨?_, ?_, ?_, ?_⟩
  · exact ((hyper_params_gating ⟨false, true, true, false, true⟩ ⟨false, true, []⟩
      [] none none [] "t" none none none false).1 rfl).1
  · exact ((hyper_params_gating ⟨false, true, true, false, true⟩ ⟨false, true, []⟩
      [] none none [] "t" none none none false).1 rfl).2
  · exact (hyper_params_gating ⟨false, true, true, false, true⟩ ⟨false, true, []⟩
      [] none none [] "t" none none none false).2.1 rfl
  · exact (hyper_params_gating ⟨true, true, true, false, true⟩ ⟨false, true, []⟩
      [] none none [] "t" none none none false).2.2.1 rfl rfl
      { ret := true, reloaded := true, sent := some [], savedOffline := none } rfl

/-- C10: for server API versions below 2.11, `edit_hyper_params` rewrites
every hyper-parameter section and name in `UNSAFE_NAMES_2_10` to the same
string prefixed with `_` and passes every other section and name through
unchanged; for 2.11 and above nothing is rewritten. -/
theorem escape_unsafe_names_spec (env : Env) (it : ParamsItem) (nm ds fs : Option String)
    (n s : String)
    (hname : (if truthy nm then nm else it.name) = some n) (hn : n ≠ "")
    (hsect : orStr fs (orStr it.section_ ds) = some s) (hs : s ≠ "") :
    (∀ v ∈ UNSAFE_NAMES_2_10, escapeValue v = "_" ++ v) ∧
    (∀ v, v ∉ UNSAFE_NAMES_2_10 → escapeValue v = v) ∧
    ("in" ∈ UNSAFE_NAMES_2_10 ∧ "type" ∈ UNSAFE_NAMES_2_10 ∧
      "all" ∈ UNSAFE_NAMES_2_10) ∧
    make_item true fs ds it nm =
      .ok { (if truthy nm then { it with name := nm } else it) with
            section_ := some (escapeValue s), name := some (escapeValue n) } ∧
    make_item false fs ds it nm =
      .ok { (if truthy nm then { it with name := nm } else it) with
            section_ := some s } ∧
    (env.v29 = true → env.offline = false → env.v211 = false →
      ∀ r, edit_hyper_params env [(it, nm)] ds fs = .ok r →
        r.sent = some [{ (if truthy nm then { it with name := nm } else it) with
            section_ := some (escapeValue s), name := some (escapeValue n) }]) := by
  have hα : (if truthy nm then { it with name := nm } else it).name = some n := by
    rcases ht : truthy nm with _ | _
    · simpa [ht] using hname
    · simpa [ht] using hname
  have hβ : orStr fs (orStr (if truthy nm then { it with name := nm } else it).section_
      ds) = some s := by
    rcases ht : truthy nm with _ | _ <;> simpa [ht] using hsect
  have hmk : ∀ esc : Bool, make_item esc fs ds it nm =
      (if n == "" || s == "" then .error ()
       else if esc then
        .ok { (if truthy nm then { it with name := nm } else it) with
              section_ := some (escapeValue s), name := some (escapeValue n) }
       else
        .ok { (if truthy nm then { it with name := nm } else it) with
              section_ := some s }) := by
    intro esc
    rw [make_item]
    simp only [hα, hβ]
  have hns : (n == "" || s == "") = false := by
    simp [hn, hs]
  refine ⟨fun v hv => by simp [escapeValue, hv], fun v hv => by simp [escapeValue, hv],
    by decide, ?_, ?_, fun hv hoff h211 r hr => ?_⟩
  · rw [hmk true, hns]; rfl
  · rw [hmk false, hns]; rfl
  · have hmap : [(it, nm)].mapM
        (fun iv => make_item (!env.v211) fs ds iv.1 iv.2) =
        .ok [{ (if truthy nm then { it with name := nm } else it) with
               section_ := some (escapeValue s), name := some (escapeValue n) }] := by
      simp only [List.mapM_cons, List.mapM_nil, h211]
      rw [show (!false) = true from rfl, hmk true, hns]
      rfl
    have hm : List.mapM.loop
        (fun iv => make_item (!env.v211) fs ds iv.1 iv.2) [(it, nm)] [] =
        .ok [{ (if truthy nm then { it with name := nm } else it) with
               section_ := some (escapeValue s), name := some (escapeValue n) }] := hmap
    rcases hsend : env.sendOk with _ | _ <;>
      · simp [edit_hyper_params, hv, hoff, hm, hsend, upsert] at hr
        simp [← hr, upsert]

/-- Witness for `escape_unsafe_names_spec`: item with section `in` and name
`type`, both in the reserved set, under API 2.10 (escaping on); `clip` is
not reserved and passes through. -/
theorem escape_unsafe_names_spec_witness :
    escapeValue "in" = "_" ++ "in" ∧ escapeValue "clip" = "clip" := by
  have h := escape_unsafe_names_spec ⟨true, true, true, false, true⟩
    ⟨some "in", some "type", some "1"⟩ none none none "type" "in"
    (by decide) (by decide) (by decide) (by decide)
  exact ⟨h.1 "in" (by decide), h.2.1 "clip" (by decide)⟩

end HyperParams

namespace Config

/-- The catch-all digit. -/
theorem digitChar_ge9 (d : Nat) : digitChar (d + 9) = '9' := rfl

/-- `charDigit` inverts `digitChar` on digits. -/
theorem charDigit_digitChar (d : Nat) (h : d < 10) :
    charDigit (digitChar d) = some d := by
  interval_cases d <;> rfl

/-- A digit character is none of the dispatch or delimiter characters, and
is recognised by `charDigit`. -/
theorem digitChar_not_special (d : Nat) :
    digitChar d ≠ '"' ∧ digitChar d ≠ '{' ∧ digitChar d ≠ '[' ∧
    digitChar d ≠ 't' ∧ digitChar d ≠ 'f' ∧ digitChar d ≠ '-' ∧
    digitChar d ≠ ']' ∧ digitChar d ≠ '}' ∧ digitChar d ≠ '.' ∧
    (charDigit (digitChar d)).isSome = true := by
  rcases Nat.lt_or_ge d 9 with h | h
  · interval_cases d <;> decide
  · obtain ⟨e, rfl⟩ : ∃ e, d = e + 9 := ⟨d - 9, by omega⟩
    rw [digitChar_ge9]
    decide

/-- All digits produced by `natDigitsAux` are below 10. -/
theorem natDigitsAux_lt : ∀ (fuel n : Nat),
    (natDigitsAux fuel n).all (· < 10) = true
  | 0, _ => rfl
  | fuel + 1, n => by
    by_cases hn : n = 0
    · simp [natDigitsAux, hn]
    · simp only [natDigitsAux, hn, if_false, List.all_cons, Bool.and_eq_true]
      refine ⟨?_, natDigitsAux_lt fuel (n / 10)⟩
      simp only [decide_eq_true_eq]
      exact Nat.mod_lt n (by omega)

/-- `natDigitsAux` computes the little-endian digits. -/
theorem valLE_natDigitsAux : ∀ (fuel n : Nat), n ≤ fuel →
    valLE (natDigitsAux fuel n) = n
  | 0, n, h => by
    simp [natDigitsAux, valLE]
    omega
  | fuel + 1, n, h => by
    by_cases hn : n = 0
    · simp [natDigitsAux, hn, valLE]
    · have hdiv : n / 10 ≤ fuel := by
        have := Nat.div_lt_self (Nat.pos_of_ne_zero hn) (by omega : 1 < 10)
        omega
      simp only [natDigitsAux, hn, if_false, valLE,
        valLE_natDigitsAux fuel (n / 10) hdiv]
      omega

/-- Big-endian evaluation of reversed little-endian digits. -/
theorem digitsToNat_reverse : ∀ l : List Nat, digitsToNat l.reverse = valLE l
  | [] => rfl
  | d :: ds => by
    rw [List.reverse_cons, digitsToNat, List.foldl_append]
    have : List.foldl (fun acc d => acc * 10 + d) 0 ds.reverse = valLE ds :=
      digitsToNat_reverse ds
    rw [this]
    simp [List.foldl, valLE]
    omega

/-- The decimal rendering of `n` is a non-empty valid digit string with
value `n`. -/
theorem natChars_spec (n : Nat) :
    ∃ ds : List Nat, natChars n = ds.map digitChar ∧ ds ≠ [] ∧
      ds.all (· < 10) = true ∧ digitsToNat ds = n := by
  by_cases hn : n = 0
  · exact ⟨[0], by simp [natChars, hn, digitChar], by simp, by decide,
      by subst hn; rfl⟩
  · refine ⟨(natDigits n).reverse, by simp [natChars, hn], ?_, ?_, ?_⟩
    · obtain ⟨m, rfl⟩ : ∃ m, n = m + 1 := ⟨n - 1, by omega⟩
      simp [natDigits, natDigitsAux]
    · rw [List.all_reverse]
      exact natDigitsAux_lt n n
    · rw [digitsToNat_reverse]
      exact valLE_natDigitsAux n n le_rfl

/-- `takeDigits` consumes exactly a rendered digit string when the suffix
does not start with a digit. -/
theorem takeDigits_append : ∀ (ds : List Nat) (rest : List Char),
    ds.all (· < 10) = true → digitStop rest = true →
    takeDigits (ds.map digitChar ++ rest) = (ds, rest)
  | [], rest, _, hstop => by
    cases rest with
    | nil => rfl
    | cons c r =>
      have : charDigit c = none := by
        simpa [digitStop, Option.isNone_iff_eq_none] using hstop
      simp [takeDigits, this]
  | d :: ds, rest, hv, hstop => by
    rw [List.all_cons, Bool.and_eq_true] at hv
    have hd : d < 10 := by simpa using hv.1
    simp [takeDigits, charDigit_digitChar d hd,
      takeDigits_append ds rest hv.2 hstop]

/-- A `stopper` suffix in particular starts with no digit. -/
theorem stopper_digitStop (rest : List Char) (h : stopper rest = true) :
    digitStop rest = true := by
  cases rest with
  | nil => rfl
  | cons c r =>
    simp only [stopper, Bool.and_eq_true] at h
    simpa [digitStop] using h.1

/-- A `stopper` suffix does not start with `.`. -/
theorem stopper_isDot (rest : List Char) (h : stopper rest = true) :
    isDot rest = false := by
  cases rest with
  | nil => rfl
  | cons c r =>
    simp only [stopper, Bool.and_eq_true] at h
    simpa [isDot] using h.2

/-- Definitional unfolding of `parseQuoted` on a cons. -/
theorem parseQuoted_cons (c : Char) (rest : List Char) :
    parseQuoted (c :: rest) =
      if c = '"' then some ([], rest)
      else if c = '\\' then
        match rest with
        | [] => none
        | c2 :: rest2 => (parseQuoted rest2).map (fun r => (c2 :: r.1, r.2))
      else (parseQuoted rest).map (fun r => (c :: r.1, r.2)) := by
  rw [parseQuoted.eq_def]

/-- `parseQuoted` undoes `escapeList` up to the closing quote. -/
theorem parseQuoted_escape : ∀ (s rest : List Char),
    parseQuoted (escapeList s ++ ('"' :: rest)) = some (s, rest)
  | [], rest => by
    rw [show escapeList [] ++ '"' :: rest = '"' :: rest from rfl,
      parseQuoted_cons, if_pos rfl]
  | c :: t, rest => by
    by_cases hc : c = '"' ∨ c = '\\'
    · simp only [escapeList, escChar, hc, if_true, List.cons_append,
        List.nil_append, List.append_assoc]
      rw [parseQuoted_cons, if_neg (by decide), if_pos rfl]
      show Option.map (fun r => (c :: r.1, r.2))
        (parseQuoted (escapeList t ++ '"' :: rest)) = some (c :: t, rest)
      rw [parseQuoted_escape t rest]
      rfl
    · simp only [escapeList, escChar, hc, if_false, List.cons_append,
        List.nil_append]
      have h1 : ¬(c = '"') := fun h => hc (Or.inl h)
      have h2 : ¬(c = '\\') := fun h => hc (Or.inr h)
      rw [parseQuoted_cons, if_neg h1, if_neg h2, parseQuoted_escape t rest]
      rfl

/-- `parseNum` parses a rendered integer followed by a stopper. -/
theorem parseNum_int (n : Int) (rest : List Char) (hst : stopper rest = true) :
    parseNum (intChars n ++ rest) = some (.vInt n, rest) := by
  have hds := stopper_digitStop rest hst
  have hdot := stopper_isDot rest hst
  cases n with
  | ofNat m =>
    obtain ⟨ds, hmap, hne, hv, hval⟩ := natChars_spec m
    obtain ⟨d, ds', rfl⟩ : ∃ d ds', ds = d :: ds' := by
      cases ds with
      | nil => exact absurd rfl hne
      | cons d ds' => exact ⟨d, ds', rfl⟩
    have hfact := (digitChar_not_special d).2.2.2.2.2.1
    have htd := takeDigits_append (d :: ds') rest hv hds
    rw [show intChars (Int.ofNat m) = natChars m from rfl, hmap]
    simp only [List.map_cons, List.cons_append] at htd ⊢
    simp [parseNum, hfact, htd, hdot, hval]
  | negSucc m =>
    obtain ⟨ds, hmap, hne, hv, hval⟩ := natChars_spec (m + 1)
    obtain ⟨d, ds', rfl⟩ : ∃ d ds', ds = d :: ds' := by
      cases ds with
      | nil => exact absurd rfl hne
      | cons d ds' => exact ⟨d, ds', rfl⟩
    have htd := takeDigits_append (d :: ds') rest hv hds
    have hneg : -((digitsToNat (d :: ds') : Int)) = Int.negSucc m := by
      rw [hval, Int.negSucc_eq]
      push_cast
      ring
    rw [show intChars (Int.negSucc m) = '-' :: natChars (m + 1) from rfl, hmap,
      List.cons_append]
    simp only [List.map_cons, List.cons_append] at htd ⊢
    simp [parseNum, htd, hdot, hneg]

/-- `parseNum` parses a rendered float followed by a stopper. -/
theorem parseNum_float (neg : Bool) (ip : Nat) (frac : List Nat)
    (hne : frac ≠ []) (hv : frac.all (· < 10) = true)
    (rest : List Char) (hst : stopper rest = true) :
    parseNum ((if neg then ['-'] else []) ++
      (natChars ip ++ '.' :: (frac.map digitChar ++ rest))) =
    some (.vFloat neg ip frac, rest) := by
  have hds := stopper_digitStop rest hst
  obtain ⟨ds, hmap, hnez, hvz, hval⟩ := natChars_spec ip
  obtain ⟨d, ds', rfl⟩ : ∃ d ds', ds = d :: ds' := by
    cases ds with
    | nil => exact absurd rfl hnez
    | cons d ds' => exact ⟨d, ds', rfl⟩
  obtain ⟨f, fs, rfl⟩ : ∃ f fs, frac = f :: fs := by
    cases frac with
    | nil => exact absurd rfl hne
    | cons f fs => exact ⟨f, fs, rfl⟩
  have htd1 := takeDigits_append (d :: ds')
    ('.' :: (List.map digitChar (f :: fs) ++ rest)) hvz (by rfl)
  have htd2 := takeDigits_append (f :: fs) rest hv hds
  cases neg with
  | false =>
    have hfact := (digitChar_not_special d).2.2.2.2.2.1
    rw [if_neg (by decide), List.nil_append, hmap]
    simp only [List.map_cons, List.cons_append] at htd1 htd2 ⊢
    simp [parseNum, hfact, htd1, htd2, hval, isDot]
  | true =>
    rw [if_pos rfl, List.cons_append, List.nil_append, hmap]
    simp only [List.map_cons, List.cons_append] at htd1 htd2 ⊢
    simp [parseNum, htd1, htd2, hval, isDot]


/-- Unfolding of `parseV` at positive fuel on a cons. -/
theorem parseV_succ (fuel : Nat) (c : Char) (rest : List Char) :
    parseV (fuel + 1) (c :: rest) =
      (if c = '"' then
        (parseQuoted rest).map (fun r => (CValue.vStr (String.mk r.1), r.2))
      else if c = '{' then
        (parseD fuel rest).map (fun r => (CValue.vDict r.1, r.2))
      else if c = '[' then
        (parseL fuel rest).map (fun r => (CValue.vList r.1, r.2))
      else if c = 't' then
        match rest with
        | 'r' :: 'u' :: 'e' :: r => some (.vBool true, r)
        | _ => none
      else if c = 'f' then
        match rest with
        | 'a' :: 'l' :: 's' :: 'e' :: r => some (.vBool false, r)
        | _ => none
      else parseNum (c :: rest)) := by
  rw [parseV.eq_def]

/-- Unfolding of `parseL` at positive fuel on a cons. -/
theorem parseL_succ (fuel : Nat) (c : Char) (rest : List Char) :
    parseL (fuel + 1) (c :: rest) =
      (if c = ']' then some (.nil, rest)
      else
        match parseV fuel (c :: rest) with
        | some (v, rest1) =>
          (match rest1 with
           | ',' :: rest2 =>
             (parseL fuel rest2).map (fun r => (CList.cons v r.1, r.2))
           | _ => none)
        | none => none) := by
  rw [parseL.eq_def]

/-- Unfolding of `parseD` at positive fuel on a cons. -/
theorem parseD_succ (fuel : Nat) (c : Char) (rest : List Char) :
    parseD (fuel + 1) (c :: rest) =
      (if c = '}' then some (.nil, rest)
      else if c = '"' then
        match parseQuoted rest with
        | some (kcs, rest1) =>
          (match rest1 with
           | '=' :: rest2 =>
             (match parseV fuel rest2 with
              | some (v, rest3) =>
                (match rest3 with
                 | ',' :: rest4 =>
                   (parseD fuel rest4).map
                     (fun r => (CDict.cons (String.mk kcs) v r.1, r.2))
                 | _ => none)
              | none => none)
           | _ => none)
        | none => none
      else none) := by
  rw [parseD.eq_def]

/-- Every value has positive parse budget. -/
theorem sizeV_pos (v : CValue) : 1 ≤ sizeV v := by
  cases v <;> simp [sizeV] <;> omega

/-- Every list has positive parse budget. -/
theorem sizeL_pos (l : CList) : 1 ≤ sizeL l := by
  cases l <;> simp [sizeL] <;> omega

/-- Every dict has positive parse budget. -/
theorem sizeD_pos (d : CDict) : 1 ≤ sizeD d := by
  cases d <;> simp [sizeD] <;> omega

/-- A printed value starts with a character other than `]`. -/
theorem printV_head (v : CValue) :
    ∃ c tl, printV v = c :: tl ∧ c ≠ ']' := by
  cases v with
  | vStr s =>
    exact ⟨'"', escapeList s.toList ++ ['"'], by simp [printV], by decide⟩
  | vInt n =>
    cases n with
    | ofNat m =>
      obtain ⟨ds, hmap, hne, hv, hval⟩ := natChars_spec m
      obtain ⟨d, ds', rfl⟩ : ∃ d ds', ds = d :: ds' := by
        cases ds with
        | nil => exact absurd rfl hne
        | cons d ds' => exact ⟨d, ds', rfl⟩
      exact ⟨digitChar d, ds'.map digitChar,
        by simp [printV, intChars, hmap],
        (digitChar_not_special d).2.2.2.2.2.2.1⟩
    | negSucc m =>
      exact ⟨'-', natChars (m + 1), by simp [printV, intChars], by decide⟩
  | vFloat neg ip frac =>
    cases neg with
    | true =>
      exact ⟨'-', natChars ip ++ '.' :: List.map digitChar frac,
        by simp [printV], by decide⟩
    | false =>
      obtain ⟨ds, hmap, hne, hv, hval⟩ := natChars_spec ip
      obtain ⟨d, ds', rfl⟩ : ∃ d ds', ds = d :: ds' := by
        cases ds with
        | nil => exact absurd rfl hne
        | cons d ds' => exact ⟨d, ds', rfl⟩
      exact ⟨digitChar d, List.map digitChar ds' ++ '.' :: List.map digitChar frac,
        by simp [printV, hmap],
        (digitChar_not_special d).2.2.2.2.2.2.1⟩
  | vBool b =>
    cases b with
    | true => exact ⟨'t', ['r', 'u', 'e'], by simp [printV], by decide⟩
    | false => exact ⟨'f', ['a', 'l', 's', 'e'], by simp [printV], by decide⟩
  | vList l => exact ⟨'[', printL l ++ [']'], by simp [printV], by decide⟩
  | vDict d => exact ⟨'{', printD d ++ ['}'], by simp [printV], by decide⟩

mutual
/-- Printed values are below the print length in parse budget. -/
theorem sizeV_le_print : ∀ v : CValue, sizeV v ≤ (printV v).length
  | .vStr s => by simp [sizeV, printV]
  | .vInt n => by
    cases n with
    | ofNat m =>
      obtain ⟨ds, hmap, hne, _, _⟩ := natChars_spec m
      have : (natChars m).length = ds.length := by rw [hmap]; simp
      have hpos : 1 ≤ ds.length := by
        cases ds with
        | nil => exact absurd rfl hne
        | cons d ds' => simp
      simp only [sizeV, printV, intChars]
      omega
    | negSucc m =>
      simp [sizeV, printV, intChars]
  | .vFloat neg ip frac => by
    cases neg <;> simp [sizeV, printV, List.length_append] <;> omega
  | .vBool b => by cases b <;> simp [sizeV, printV]
  | .vList l => by
    have := sizeL_le_print l
    simp only [sizeV, printV]
    simp [List.length_append]
    omega
  | .vDict d => by
    have := sizeD_le_print d
    simp only [sizeV, printV]
    simp [List.length_append]
    omega
/-- Budget bound for printed lists. -/
theorem sizeL_le_print : ∀ l : CList, sizeL l ≤ (printL l).length + 1
  | .nil => by simp [sizeL, printL]
  | .cons v t => by
    have h1 := sizeV_le_print v
    have h2 := sizeL_le_print t
    simp only [sizeL, printL]
    simp [List.length_append]
    omega
/-- Budget bound for printed dicts. -/
theorem sizeD_le_print : ∀ d : CDict, sizeD d ≤ (printD d).length + 1
  | .nil => by simp [sizeD, printD]
  | .cons k v t => by
    have h1 := sizeV_le_print v
    have h2 := sizeD_le_print t
    simp only [sizeD, printD]
    simp [List.length_append]
    omega
end


mutual
/-- Parsing undoes printing for values, given enough fuel, a well-formed
value and a suffix that does not continue the token. -/
theorem parseV_print : ∀ (fuel : Nat) (v : CValue) (rest : List Char),
    sizeV v ≤ fuel → wfV v = true → stopper rest = true →
    parseV fuel (printV v ++ rest) = some (v, rest)
  | 0, v, rest => fun hf _ _ => absurd hf (by have := sizeV_pos v; omega)
  | f + 1, .vStr s, rest => fun hf hw hst => by
    have h1 : printV (.vStr s) ++ rest =
        '"' :: (escapeList s.toList ++ ('"' :: rest)) := by
      simp [printV]
    rw [h1, parseV_succ, if_pos rfl, parseQuoted_escape]
    rfl
  | f + 1, .vInt n, rest => fun hf hw hst => by
    cases n with
    | ofNat m =>
      obtain ⟨ds, hmap, hne, hv, hval⟩ := natChars_spec m
      obtain ⟨d, ds', rfl⟩ : ∃ d ds', ds = d :: ds' := by
        cases ds with
        | nil => exact absurd rfl hne
        | cons d ds' => exact ⟨d, ds', rfl⟩
      have hfacts := digitChar_not_special d
      have h1 : printV (.vInt (Int.ofNat m)) ++ rest =
          digitChar d :: (List.map digitChar ds' ++ rest) := by
        simp [printV, intChars, hmap]
      rw [h1, parseV_succ, if_neg hfacts.1, if_neg hfacts.2.1,
        if_neg hfacts.2.2.1, if_neg hfacts.2.2.2.1, if_neg hfacts.2.2.2.2.1]
      have h2 : digitChar d :: (List.map digitChar ds' ++ rest) =
          intChars (Int.ofNat m) ++ rest := by
        simp [intChars, hmap]
      rw [h2]
      exact parseNum_int _ rest hst
    | negSucc m =>
      have h1 : printV (.vInt (Int.negSucc m)) ++ rest =
          '-' :: (natChars (m + 1) ++ rest) := by
        simp [printV, intChars]
      rw [h1, parseV_succ, if_neg (by decide), if_neg (by decide),
        if_neg (by decide), if_neg (by decide), if_neg (by decide)]
      have h2 : ('-' : Char) :: (natChars (m + 1) ++ rest) =
          intChars (Int.negSucc m) ++ rest := by
        simp [intChars]
      rw [h2]
      exact parseNum_int _ rest hst
  | f + 1, .vFloat neg ip frac, rest => fun hf hw hst => by
    have hw' : (!frac.isEmpty) = true ∧ frac.all (· < 10) = true := by
      have : wfV (.vFloat neg ip frac) =
          (!frac.isEmpty && frac.all (· < 10)) := by simp [wfV]
      rw [this, Bool.and_eq_true] at hw
      exact hw
    have hne : frac ≠ [] := by
      cases frac with
      | nil => simp at hw'
      | cons a b => exact List.cons_ne_nil a b
    have hv : frac.all (· < 10) = true := hw'.2
    cases neg with
    | true =>
      have h1 : printV (.vFloat true ip frac) ++ rest =
          '-' :: (natChars ip ++ '.' :: (List.map digitChar frac ++ rest)) := by
        simp [printV]
      rw [h1, parseV_succ, if_neg (by decide), if_neg (by decide),
        if_neg (by decide), if_neg (by decide), if_neg (by decide)]
      have h2 : ('-' : Char) :: (natChars ip ++ '.' ::
            (List.map digitChar frac ++ rest)) =
          (if true then ['-'] else []) ++
            (natChars ip ++ '.' :: (frac.map digitChar ++ rest)) := by
        simp
      rw [h2]
      exact parseNum_float true ip frac hne hv rest hst
    | false =>
      obtain ⟨ds, hmap, hnez, hvz, hval⟩ := natChars_spec ip
      obtain ⟨d, ds', rfl⟩ : ∃ d ds', ds = d :: ds' := by
        cases ds with
        | nil => exact absurd rfl hnez
        | cons d ds' => exact ⟨d, ds', rfl⟩
      have hfacts := digitChar_not_special d
      have h1 : printV (.vFloat false ip frac) ++ rest =
          digitChar d :: (List.map digitChar ds' ++ '.' ::
            (List.map digitChar frac ++ rest)) := by
        simp [printV, hmap]
      rw [h1, parseV_succ, if_neg hfacts.1, if_neg hfacts.2.1,
        if_neg hfacts.2.2.1, if_neg hfacts.2.2.2.1, if_neg hfacts.2.2.2.2.1]
      have h2 : digitChar d :: (List.map digitChar ds' ++ '.' ::
            (List.map digitChar frac ++ rest)) =
          (if false then ['-'] else []) ++
            (natChars ip ++ '.' :: (frac.map digitChar ++ rest)) := by
        simp [hmap]
      rw [h2]
      exact parseNum_float false ip frac hne hv rest hst
  | f + 1, .vBool b, rest => fun hf hw hst => by
    cases b with
    | true =>
      have h1 : printV (.vBool true) ++ rest =
          't' :: ('r' :: 'u' :: 'e' :: rest) := by
        simp [printV]
      rw [h1, parseV_succ, if_neg (by decide), if_neg (by decide),
        if_neg (by decide), if_pos rfl]
      rfl
    | false =>
      have h1 : printV (.vBool false) ++ rest =
          'f' :: ('a' :: 'l' :: 's' :: 'e' :: rest) := by
        simp [printV]
      rw [h1, parseV_succ, if_neg (by decide), if_neg (by decide),
        if_neg (by decide), if_neg (by decide), if_pos rfl]
      rfl
  | f + 1, .vList l, rest => fun hf hw hst => by
    have hfl : sizeL l ≤ f := by
      have : sizeV (.vList l) = sizeL l + 1 := by simp [sizeV]
      omega
    have hwl : wfL l = true := by simpa [wfV] using hw
    have h1 : printV (.vList l) ++ rest = '[' :: (printL l ++ (']' :: rest)) := by
      simp [printV]
    rw [h1, parseV_succ, if_neg (by decide), if_neg (by decide), if_pos rfl,
      parseL_print f l rest hfl hwl]
    rfl
  | f + 1, .vDict d, rest => fun hf hw hst => by
    have hfd : sizeD d ≤ f := by
      have : sizeV (.vDict d) = sizeD d + 1 := by simp [sizeV]
      omega
    have hwd : wfD d = true := by simpa [wfV] using hw
    have h1 : printV (.vDict d) ++ rest = '{' :: (printD d ++ ('}' :: rest)) := by
      simp [printV]
    rw [h1, parseV_succ, if_neg (by decide), if_pos rfl,
      parseD_print f d rest hfd hwd]
    rfl
/-- Parsing undoes printing for list bodies followed by `]`. -/
theorem parseL_print : ∀ (fuel : Nat) (l : CList) (rest : List Char),
    sizeL l ≤ fuel → wfL l = true →
    parseL fuel (printL l ++ (']' :: rest)) = some (l, rest)
  | 0, l, rest => fun hf _ => absurd hf (by have := sizeL_pos l; omega)
  | f + 1, .nil, rest => fun hf hw => by
    have h1 : printL .nil ++ (']' :: rest) = ']' :: rest := by simp [printL]
    rw [h1, parseL_succ, if_pos rfl]
  | f + 1, .cons v t, rest => fun hf hw => by
    have hsz : sizeV v + sizeL t + 1 ≤ f + 1 := by
      have : sizeL (.cons v t) = sizeV v + sizeL t + 1 := by simp [sizeL]
      omega
    have hv1 := sizeV_pos v
    have hl1 := sizeL_pos t
    have hw' : wfV v = true ∧ wfL t = true := by
      have : wfL (.cons v t) = (wfV v && wfL t) := by simp [wfL]
      rw [this, Bool.and_eq_true] at hw
      exact hw
    obtain ⟨c, tl, hpr, hcne⟩ := printV_head v
    have h1 : printL (.cons v t) ++ (']' :: rest) =
        c :: (tl ++ (',' :: (printL t ++ (']' :: rest)))) := by
      simp [printL, hpr]
    rw [h1, parseL_succ, if_neg hcne]
    have h2 : c :: (tl ++ (',' :: (printL t ++ (']' :: rest)))) =
        printV v ++ (',' :: (printL t ++ (']' :: rest))) := by
      simp [hpr]
    rw [h2, parseV_print f v _ (by omega) hw'.1 (by rfl)]
    show (parseL f (printL t ++ (']' :: rest))).map
      (fun r => (CList.cons v r.1, r.2)) = some (.cons v t, rest)
    rw [parseL_print f t rest (by omega) hw'.2]
    rfl
/-- Parsing undoes printing for dict bodies followed by `}`. -/
theorem parseD_print : ∀ (fuel : Nat) (d : CDict) (rest : List Char),
    sizeD d ≤ fuel → wfD d = true →
    parseD fuel (printD d ++ ('}' :: rest)) = some (d, rest)
  | 0, d, rest => fun hf _ => absurd hf (by have := sizeD_pos d; omega)
  | f + 1, .nil, rest => fun hf hw => by
    have h1 : printD .nil ++ ('}' :: rest) = '}' :: rest := by simp [printD]
    rw [h1, parseD_succ, if_pos rfl]
  | f + 1, .cons k v t, rest => fun hf hw => by
    have hsz : sizeV v + sizeD t + 1 ≤ f + 1 := by
      have : sizeD (.cons k v t) = sizeV v + sizeD t + 1 := by simp [sizeD]
      omega
    have hv1 := sizeV_pos v
    have hd1 := sizeD_pos t
    have hw' : wfV v = true ∧ wfD t = true := by
      have : wfD (.cons k v t) = (wfV v && wfD t) := by simp [wfD]
      rw [this, Bool.and_eq_true] at hw
      exact hw
    have h1 : printD (.cons k v t) ++ ('}' :: rest) =
        '"' :: (escapeList k.toList ++ ('"' :: ('=' ::
          (printV v ++ (',' :: (printD t ++ ('}' :: rest))))))) := by
      simp [printD]
    rw [h1, parseD_succ, if_neg (by decide), if_pos rfl, parseQuoted_escape]
    show (match parseV f (printV v ++ (',' :: (printD t ++ ('}' :: rest)))) with
      | some (v', rest3) =>
        (match rest3 with
         | ',' :: rest4 =>
           (parseD f rest4).map
             (fun r => (CDict.cons (String.mk k.toList) v' r.1, r.2))
         | _ => none)
      | none => none) = some (.cons k v t, rest)
    rw [parseV_print f v _ (by omega) hw'.1 (by rfl)]
    show (parseD f (printD t ++ ('}' :: rest))).map
      (fun r => (CDict.cons (String.mk k.toList) v r.1, r.2)) =
      some (.cons k v t, rest)
    rw [parseD_print f t rest (by omega) hw'.2]
    rfl
end


/-- C7: Config text round-trips: for every dictionary whose keys are
non-empty strings containing none of the special characters and whose
values are strings, integers, floats, booleans, lists of such values, or
nested such dictionaries, `text_to_config_dict (config_dict_to_text d)`
equals `d`; additionally `config_dict_to_text` returns a string input
unchanged. -/
theorem config_round_trip (d : CDict) (s : String)
    (hw : wfD d = true) (hk : goodKeysD d = true) :
    text_to_config_dict (config_dict_to_text (.val (.vDict d))) =
      .ok (.vDict d) ∧
    config_dict_to_text (.str s) = s := by
  refine ⟨?_, rfl⟩
  have h1 : config_dict_to_text (.val (.vDict d)) =
      String.mk (printV (.vDict d)) := by
    show (if raiseOnSpecialKeyV (.vDict d) then to_hocon (.vDict d)
          else to_hocon (.vDict d)) = String.mk (printV (.vDict d))
    split <;> rfl
  rw [h1]
  show parse_string (String.mk (printV (.vDict d))) = .ok (.vDict d)
  have hsz : sizeV (.vDict d) ≤ (printV (.vDict d)).length + 1 := by
    have := sizeV_le_print (.vDict d)
    omega
  have hwv : wfV (.vDict d) = true := by simpa [wfV] using hw
  have hp := parseV_print ((printV (.vDict d)).length + 1) (.vDict d) []
    hsz hwv (by rfl)
  rw [List.append_nil] at hp
  have hlen : (String.mk (printV (.vDict d))).length =
      (printV (.vDict d)).length := rfl
  have htl : (String.mk (printV (.vDict d))).toList =
      printV (.vDict d) := rfl
  simp [parse_string, hlen, htl, hp]

/-- Witness for `config_round_trip` at a concrete two-entry dictionary. -/
theorem config_round_trip_witness :
    text_to_config_dict (config_dict_to_text (.val (.vDict
      (.cons "name" (.vStr "demo")
        (.cons "count" (.vInt 3)
          (.cons "rate" (.vFloat true 0 [2, 5])
            (.cons "on" (.vBool true)
              (.cons "tags" (.vList (.cons (.vStr "a") (.cons (.vInt (-7)) .nil)))
                (.cons "sub" (.vDict (.cons "k" (.vStr "v") .nil))
                  .nil))))))))) =
      .ok (.vDict
      (.cons "name" (.vStr "demo")
        (.cons "count" (.vInt 3)
          (.cons "rate" (.vFloat true 0 [2, 5])
            (.cons "on" (.vBool true)
              (.cons "tags" (.vList (.cons (.vStr "a") (.cons (.vInt (-7)) .nil)))
                (.cons "sub" (.vDict (.cons "k" (.vStr "v") .nil))
                  .nil))))))) ∧
    config_dict_to_text (.str "a = 1") = "a = 1" :=
  config_round_trip _ "a = 1" (by decide) (by decide)

end Config

end ClearML
